import Mathlib

/-!
# Pricefeeder: commit-reveal poster, aggregate provider, feeder loop, event stream

A shallow embedding of the orchestration code of the price feeder
(`feeder/priceposter/client.go`, `feeder/priceprovider/aggregateprovider.go`,
`feeder/feeder.go`, `feeder/eventstream/stream.go`) together with the
properties its specification states about it.

Conventions of the embedding.
* `uint64` values are natural numbers; an addition that can wrap is written
  with an explicit `% 2 ^ 64`.
* A `float64` is carried around but never computed with; it is identified by
  its IEEE-754 bit pattern, so the literal `0` is the pattern `0`.
* A Go `select` that waits on the stop signal and on a channel send is
  resolved by the scheduler; the resolution is an explicit input of the
  step functions.
* Writes to the logger and to the Prometheus counters carry no data back
  into the program and are left out.
-/

set_option linter.dupNamespace false

namespace Pricefeeder

/-! ## Shared data types (`types/price.go` and the types it refers to) -/

/-- An asset pair identifier (`asset.Pair`, a string such as `ubtc:unusd`). -/
abbrev AssetPair := String

/-- A `float64`, identified by its 64-bit pattern. -/
structure Float64 where
  bits : Nat
deriving DecidableEq, Repr

/-- The `float64` literal `0` (positive zero, all bits clear). -/
def Float64.zero : Float64 := ⟨0⟩

/-- The processed price that is submitted to the chain (`types.Price`). -/
structure Price where
  Pair : AssetPair
  Price : Float64
  SourceName : String
  Valid : Bool
deriving DecidableEq, Repr

/-- The Go zero value `types.Price{}`, with which `make([]types.Price, n)` fills a slice. -/
def zeroPrice : Price := ⟨"", Float64.zero, "", false⟩

/-- Modelled from the spec: the declaration of `types.Params` is not among the
files at hand; the spec gives it as an ordered sequence of pairs and the length of
the vote period in blocks (a `uint64` in the uses at `stream.go:120`). -/
structure Params where
  Pairs : List AssetPair
  VotePeriodBlocks : Nat
deriving DecidableEq, Repr

/-- Modelled from the spec: `Params.Equal` is declared with `types.Params`; the spec
says that equality is structural: same pairs, same period length. -/
def Params.Equal (p q : Params) : Bool :=
  p.VotePeriodBlocks == q.VotePeriodBlocks && p.Pairs == q.Pairs

/-- Modelled from the spec: `types.VotingPeriod` is declared outside the files at
hand; it carries the height at which the voting period starts (`stream.go:128`). -/
structure VotingPeriod where
  Height : Nat
deriving DecidableEq, Repr

/-! ## The price poster (`feeder/priceposter/client.go`) -/

/-- The response of a broadcast; `SendPrices` reads only its transaction hash. -/
structure TxResponse where
  TxHash : String
deriving DecidableEq, Repr

/-- The `Client` of `client.go:109`. The type `PV` stands for the unexported
`prevote`, whose declaration is outside the files at hand; the logger and the
connection handles in `deps` are folded into `SendEnv`. -/
structure Client (PV : Type) where
  validator : String
  feeder : String
  previousPrevote : Option PV

/-- What the two helpers called by `SendPrices` do at one call. Both are declared
outside the files at hand and are taken as parameters: `newPrevote` draws a random
salt, `vote` signs and broadcasts within the 15 second context, and every way in
which it can fail is the one `error` outcome. -/
structure SendEnv (PV : Type) where
  newPrevote : List Price → String → String → PV
  vote : PV → Option PV → String → String → Except String TxResponse

/-- What one call of `SendPrices` did: the prevote it built, the previous prevote
it handed to `vote`, and whether `vote` returned without error. -/
structure SendRecord (PV : Type) where
  built : PV
  handed : Option PV
  succeeded : Bool

/-- The client as `Dial` returns it (`client.go:98`): no previous prevote. -/
def Client.fresh (PV : Type) (validator feeder : String) : Client PV :=
  { validator := validator, feeder := feeder, previousPrevote := none }

/-- The method `Client.SendPrices` (`client.go:136`): build the new prevote, submit it
together with the previous one, and on an error return with the client as it was;
otherwise store the new prevote. -/
def Client.SendPrices {PV : Type} (env : SendEnv PV) (c : Client PV)
    (_vp : VotingPeriod) (prices : List Price) : Client PV × SendRecord PV :=
  let newPrevote := env.newPrevote prices c.validator c.feeder
  match env.vote newPrevote c.previousPrevote c.validator c.feeder with
  | .error _ => (c, ⟨newPrevote, c.previousPrevote, false⟩)
  | .ok _ => ({ c with previousPrevote := some newPrevote }, ⟨newPrevote, c.previousPrevote, true⟩)

/-- One call of `SendPrices` as the feeder issues it, with the behaviour of the
helpers at that moment. -/
structure SendCall (PV : Type) where
  env : SendEnv PV
  vp : VotingPeriod
  prices : List Price

/-- A sequence of `SendPrices` calls on one client, each on the state the previous
one left; returns the final client and the record of every call, in order. -/
def Client.sendAll {PV : Type} : Client PV → List (SendCall PV) → Client PV × List (SendRecord PV)
  | c, [] => (c, [])
  | c, call :: rest =>
    let r := c.SendPrices call.env call.vp call.prices
    let rs := Client.sendAll r.1 rest
    (rs.1, r.2 :: rs.2)

/-- The prevote that should be revealed after a history of calls: the one built by
the most recent call that succeeded, if any. -/
def pendingAfter {PV : Type} (history : List (SendRecord PV)) : Option PV :=
  (history.reverse.find? (fun r => r.succeeded)).map (fun r => r.built)

/-! ## The aggregate price provider (`feeder/priceprovider/aggregateprovider.go`) -/

/-- A child behind the interface `types.PriceProvider`, as one lookup of the
aggregate sees it: the `Price` its `GetPrice` answers for each pair at that moment.
A lookup calls each child at most once, so this is all of the child it can observe. -/
structure PriceProvider where
  GetPrice : AssetPair → Price

/-- The `AggregatePriceProvider` of `aggregateprovider.go:19`: the values of the map
`providers`. Its integer keys are never read by `GetPrice`. -/
structure AggregatePriceProvider where
  providers : List PriceProvider

/-- One traversal of the map `providers` by `range`: Go visits every entry once, in
an order it does not specify. -/
structure RangeOrder (a : AggregatePriceProvider) where
  visit : List PriceProvider
  perm : visit.Perm a.providers

/-- Result of one call of the aggregate `GetPrice`: the returned price and the
children whose `GetPrice` was called, in the order of the calls. -/
structure Lookup where
  price : Price
  queried : List PriceProvider

/-- The loop of `aggregateprovider.go:58`: ask the children in the order given and
return at the first price that is valid. `none` means the loop ran to its end. -/
def rangeProviders : List PriceProvider → AssetPair → Option Price × List PriceProvider
  | [], _ => (none, [])
  | p :: rest, pair =>
    let price := p.GetPrice pair
    if price.Valid then (some price, [p])
    else
      let r := rangeProviders rest pair
      (r.1, p :: r.2)

/-- The method `AggregatePriceProvider.GetPrice` (`aggregateprovider.go:55`): the loop,
and after it the price named `missing` for the pair. -/
def AggregatePriceProvider.GetPrice (a : AggregatePriceProvider) (order : RangeOrder a)
    (pair : AssetPair) : Lookup :=
  match rangeProviders order.visit pair with
  | (some price, queried) => ⟨price, queried⟩
  | (none, queried) =>
    ⟨{ SourceName := "missing", Pair := pair, Price := Float64.zero, Valid := false }, queried⟩

/-! ## The feeder (`feeder/feeder.go`) -/

/-- A call the feeder makes on one of its collaborators, with what it passed and,
for `GetPrice`, what came back. -/
inductive FeederCall where
  | GetPrice (pair : AssetPair) (result : Price)
  | SendPrices (vp : VotingPeriod) (prices : List Price)
  | CloseEventStream
  | ClosePricePoster
  | ClosePriceProvider
  | CloseDone
deriving DecidableEq, Repr

/-- The `Feeder` of `feeder.go:19`. The price provider behind the interface
`types.PriceProvider` is an object with a state of type `σ` and a `GetPrice` that may
change it; the event stream and the price poster return nothing to the feeder, so the
calls made on them are recorded as `FeederCall`s. -/
structure Feeder (σ : Type) where
  params : Params
  priceProvider : σ
  GetPrice : σ → AssetPair → Price × σ

/-- The constructor `NewFeeder` (`feeder.go:33`): the parameters start as `types.Params{}`. -/
def NewFeeder {σ : Type} (priceProvider : σ) (GetPrice : σ → AssetPair → Price × σ) : Feeder σ :=
  { params := ⟨[], 0⟩, priceProvider := priceProvider, GetPrice := GetPrice }

/-- The method `handleParamsUpdate` (`feeder.go:95`). -/
def Feeder.handleParamsUpdate {σ : Type} (f : Feeder σ) (params : Params) : Feeder σ :=
  { f with params := params }

/-- The body of the loop of `feeder.go:104` for one pair: the price is asked for, its
value is set to `0` when it is not valid, and it is stored at index `i`. -/
def gatherStep {σ : Type} (GetPrice : σ → AssetPair → Price × σ) (i : Nat) (p : AssetPair)
    (st : σ × List Price × List FeederCall) : σ × List Price × List FeederCall :=
  let r := GetPrice st.1 p
  let price := if !r.1.Valid then { r.1 with Price := Float64.zero } else r.1
  (r.2, st.2.1.set i price, st.2.2 ++ [FeederCall.GetPrice p r.1])

/-- The loop of `feeder.go:104` over the pairs that remain, from index `i` on. -/
def gatherLoop {σ : Type} (GetPrice : σ → AssetPair → Price × σ) :
    List AssetPair → Nat → σ × List Price × List FeederCall → σ × List Price × List FeederCall
  | [], _, st => st
  | p :: rest, i, st => gatherLoop GetPrice rest (i + 1) (gatherStep GetPrice i p st)

/-- The method `handleVotingPeriod` (`feeder.go:101`): a slice of `len(f.params.Pairs)`
zero prices is filled by the loop and handed to `SendPrices` together with `vp`.
Returns the feeder and the calls made, in order. -/
def Feeder.handleVotingPeriod {σ : Type} (f : Feeder σ) (vp : VotingPeriod) :
    Feeder σ × List FeederCall :=
  let prices := List.replicate f.params.Pairs.length zeroPrice
  let r := gatherLoop f.GetPrice f.params.Pairs 0 (f.priceProvider, prices, [])
  ({ f with priceProvider := r.1 }, r.2.2 ++ [FeederCall.SendPrices vp r.2.1])

/-- Specification side of `handleVotingPeriod`: the prices the provider returns when
it is asked for the pairs one after the other, in order, and its state afterwards. -/
def askAll {σ : Type} (GetPrice : σ → AssetPair → Price × σ) :
    List AssetPair → σ → List Price × σ
  | [], st => ([], st)
  | p :: rest, st =>
    let r := GetPrice st p
    let rs := askAll GetPrice rest r.2
    (r.1 :: rs.1, rs.2)

/-- Specification side of `handleVotingPeriod`: the abstain vote, a price that is not
valid with its value replaced by `0` and its other fields kept. -/
def abstainIfInvalid (r : Price) : Price :=
  if r.Valid then r else { r with Price := Float64.zero }

/-- How the `select` of `initParamsOrDie` (`feeder.go:56`) is resolved: a value
arrives on `ParamsUpdate()` first, or the timer of `time.After(InitTimeout)` fires first. -/
inductive InitSelect where
  | paramsUpdate (initParams : Params)
  | timeAfter
deriving DecidableEq, Repr

/-- The method `initParamsOrDie` (`feeder.go:55`); `error` is the panic. -/
def Feeder.initParamsOrDie {σ : Type} (f : Feeder σ) : InitSelect → Except String (Feeder σ)
  | .paramsUpdate initParams => .ok (f.handleParamsUpdate initParams)
  | .timeAfter => .error "init timeout deadline exceeded"

/-- What the `select` of the main loop (`feeder.go:72`) receives in one iteration. -/
inductive FeederEvent where
  | stop
  | paramsUpdate (params : Params)
  | votingPeriodStarted (vp : VotingPeriod)
deriving DecidableEq, Repr

/-- The method `close` (`feeder.go:87`): the calls it makes, in order. -/
def Feeder.close : List FeederCall :=
  [FeederCall.CloseEventStream, FeederCall.ClosePricePoster, FeederCall.ClosePriceProvider,
    FeederCall.CloseDone]

/-- The method `loop` (`feeder.go:68`) on the events its `select` receives; the
deferred `close` runs when the stop signal is received. With no event left the loop
is still waiting. -/
def Feeder.loop {σ : Type} : Feeder σ → List FeederEvent → Feeder σ × List FeederCall
  | f, [] => (f, [])
  | f, .stop :: _ => (f, Feeder.close)
  | f, .paramsUpdate params :: rest => Feeder.loop (f.handleParamsUpdate params) rest
  | f, .votingPeriodStarted vp :: rest =>
    let r := f.handleVotingPeriod vp
    let rs := Feeder.loop r.1 rest
    (rs.1, r.2 ++ rs.2)

/-- The method `Run` (`feeder.go:48`): `initParamsOrDie`, and when that returns the
goroutine of `loop` is started on the events that follow. `error` is the panic. -/
def Feeder.Run {σ : Type} (f : Feeder σ) (init : InitSelect) (events : List FeederEvent) :
    Except String (Feeder σ × List FeederCall) :=
  match f.initParamsOrDie init with
  | .error e => .error e
  | .ok f1 => .ok (f1.loop events)

/-- Whether a call is one of those that `close` makes. -/
def FeederCall.isClose : FeederCall → Bool
  | .GetPrice _ _ => false
  | .SendPrices _ _ => false
  | .CloseEventStream => true
  | .ClosePricePoster => true
  | .ClosePriceProvider => true
  | .CloseDone => true

/-- The receive `<-f.done` of `Close` (`feeder.go:120`), set against the calls the
goroutine of `loop` makes: it returns once `close(f.done)` has been made, with the
calls made up to then, and it blocks (`none`) as long as that has not happened. -/
def receiveDone : List FeederCall → Option (List FeederCall)
  | [] => none
  | c :: rest =>
    if c = FeederCall.CloseDone then some [c]
    else (receiveDone rest).map (fun made => c :: made)

/-- The method `Close` (`feeder.go:118`): `close(f.stop)`, then `<-f.done`. `events`
is what the `select` of the loop receives; the stop signal is among them once the
loop has taken it. `none` means that `Close` has not returned. -/
def Feeder.Close {σ : Type} (f : Feeder σ) (events : List FeederEvent) :
    Option (Feeder σ × List FeederCall) :=
  let r := f.loop events
  (receiveDone r.2).map (fun made => (r.1, made))

/-! ## The event stream (`feeder/eventstream/stream.go`) -/

/-- A websocket payload (`[]byte`). -/
abbrev Message := List Nat

/-- How the inner `select` of a loop (`stream.go:125`, `stream.go:172`) is resolved:
the stop signal is observed, or the value is sent on the channel. -/
inductive Resolution where
  | stopSignal
  | sent
deriving DecidableEq, Repr

/-- The body of the `case msg := <-ws.message()` branch of `votingPeriodStartedLoop`
(`stream.go:105`). `GetBlockHeight` is `types.GetBlockHeight`, declared outside the
files at hand; `loaded` is what `s.params.Load()` returns. The result lists the
values sent on `votingPeriodChannel`; `error` is the run-time panic of `%` with a
zero divisor. -/
def votingPeriodStartedStep (GetBlockHeight : Message → Except String Nat)
    (loaded : Option Params) (msg : Message) (sel : Resolution) :
    Except String (List VotingPeriod) :=
  match GetBlockHeight msg with
  | .error _ => .ok []
  | .ok blockHeight =>
    if blockHeight ≤ 0 then .ok []
    else
      match loaded with
      | none => .ok []
      | some p =>
        if p.VotePeriodBlocks = 0 then .error "integer divide by zero"
        else if (blockHeight + 1) % 2 ^ 64 % p.VotePeriodBlocks ≠ 0 then .ok []
        else
          match sel with
          | .stopSignal => .ok []
          | .sent => .ok [⟨(blockHeight + 1) % 2 ^ 64⟩]

/-- What the outer `select` of `votingPeriodStartedLoop` receives in one iteration:
the stop signal, or a message, given with the parameters cached at that moment and
the resolution of the inner `select` should it be reached. -/
inductive BlockWatchEvent where
  | stopSignal
  | message (msg : Message) (loaded : Option Params) (sel : Resolution)
deriving DecidableEq, Repr

/-- How far a loop got. -/
inductive LoopStatus where
  | waiting
  | exited
  | panicked
deriving DecidableEq, Repr

/-- The method `votingPeriodStartedLoop` (`stream.go:94`) on the events its outer
`select` receives: the values sent on `votingPeriodChannel`, and how far it got. -/
def votingPeriodStartedLoop (GetBlockHeight : Message → Except String Nat) :
    List BlockWatchEvent → List VotingPeriod × LoopStatus
  | [] => ([], .waiting)
  | .stopSignal :: _ => ([], .exited)
  | .message msg loaded sel :: rest =>
    match votingPeriodStartedStep GetBlockHeight loaded msg sel with
    | .error _ => ([], .panicked)
    | .ok out =>
      let r := votingPeriodStartedLoop GetBlockHeight rest
      (out ++ r.1, r.2)

/-- The body of the `case <-tick.C` branch of `paramsLoop` (`stream.go:159`).
`cached` is the content of `s.params`, `fetched` the result of `fetchParams`. Returns
the new content of `s.params` and the values sent on `paramsChannel`. -/
def paramsStep (cached : Option Params) (fetched : Except String Params) (sel : Resolution) :
    Option Params × List Params :=
  match fetched with
  | .error _ => (cached, [])
  | .ok newParams =>
    let oldParams := cached
    match oldParams with
    | some old =>
      if old.Equal newParams then (some newParams, [])
      else
        match sel with
        | .stopSignal => (some newParams, [])
        | .sent => (some newParams, [newParams])
    | none =>
      match sel with
      | .stopSignal => (some newParams, [])
      | .sent => (some newParams, [newParams])

/-- What the outer `select` of `paramsLoop` receives in one iteration: a tick, given
with the result of the query made on it and the resolution of the inner `select`
should it be reached, or the stop signal. -/
inductive ParamsEvent where
  | tick (fetched : Except String Params) (sel : Resolution)
  | stopSignal

/-- The method `paramsLoop` (`stream.go:137`) on the events its `select` receives,
from the content `cached` of `s.params`: the final content, the values sent on
`paramsChannel`, and how far it got. -/
def paramsLoop : Option Params → List ParamsEvent → Option Params × List Params × LoopStatus
  | cached, [] => (cached, [], .waiting)
  | cached, .stopSignal :: _ => (cached, [], .exited)
  | cached, .tick fetched sel :: rest =>
    let r := paramsStep cached fetched sel
    let rs := paramsLoop r.1 rest
    (rs.1, r.2 ++ rs.2.1, rs.2.2)

/-- Which case a `select` over the stop signal and one other communication takes. -/
inductive Picked where
  | stop
  | other
deriving DecidableEq, Repr

/-- The `select` statement of Go over the stop signal and one other communication
(`stream.go:102`, `stream.go:125`, `stream.go:158`, `stream.go:172`): a case that can
proceed is taken; when both can, the runtime chooses one of them at random, here by
`pickOther`; when none can, the `select` blocks (`none`). -/
def goSelect (stopClosed otherReady pickOther : Bool) : Option Picked :=
  match stopClosed, otherReady with
  | false, false => none
  | false, true => some .other
  | true, false => some .stop
  | true, true => some (if pickOther then .other else .stop)

/-- The inner `select` of a loop once `stopSignal` is closed: it does not block. -/
def innerAfterStop (sendReady pickSend : Bool) : Resolution :=
  match goSelect true sendReady pickSend with
  | some .other => .sent
  | _ => .stopSignal

/-- What one iteration of `votingPeriodStartedLoop` meets once `stopSignal` is closed:
whether a message is waiting and which case the runtime prefers, the message and the
parameters cached, whether a receiver is waiting on `votingPeriodChannel` and which
case the runtime prefers in the inner `select`. -/
structure BlockTurn where
  messageReady : Bool
  pickMessage : Bool
  msg : Message
  loaded : Option Params
  receiverReady : Bool
  pickSend : Bool
deriving DecidableEq, Repr

/-- The event an iteration of `votingPeriodStartedLoop` handles once `stopSignal` is
closed. -/
def BlockTurn.afterStop (t : BlockTurn) : BlockWatchEvent :=
  match goSelect true t.messageReady t.pickMessage with
  | some .other => .message t.msg t.loaded (innerAfterStop t.receiverReady t.pickSend)
  | _ => .stopSignal

/-- What one iteration of `paramsLoop` meets once `stopSignal` is closed: whether a
tick is waiting and which case the runtime prefers, the result of the query, whether
`paramsChannel` (of capacity 1) can take a value and which case the runtime prefers in
the inner `select`. -/
structure ParamsTurn where
  tickReady : Bool
  pickTick : Bool
  fetched : Except String Params
  channelReady : Bool
  pickSend : Bool

/-- The event an iteration of `paramsLoop` handles once `stopSignal` is closed. -/
def ParamsTurn.afterStop (t : ParamsTurn) : ParamsEvent :=
  match goSelect true t.tickReady t.pickTick with
  | some .other => .tick t.fetched (innerAfterStop t.channelReady t.pickSend)
  | _ => .stopSignal

/-- The counter of `s.waitGroup`: `newStream` adds 2 (`stream.go:73`), and the deferred
function of each loop calls `Done` when the loop is left (`stream.go:97`,
`stream.go:141`). -/
def waitGroupCounter (blockWatch paramsPoll : LoopStatus) : Nat :=
  2 - (if blockWatch = .waiting then 0 else 1) - (if paramsPoll = .waiting then 0 else 1)

/-- The method `Stream.Close` (`stream.go:186`): `close(s.stopSignal)`, then
`s.waitGroup.Wait()`. The turns are what the two loops meet from the closing on, and
`cached` is the content of `s.params` at that moment. `none` means that `Wait` has not
returned; otherwise the result holds the values the two loops sent after the stop
signal was closed. -/
def Stream.Close (GetBlockHeight : Message → Except String Nat) (cached : Option Params)
    (blockTurns : List BlockTurn) (paramsTurns : List ParamsTurn) :
    Option (List VotingPeriod × List Params) :=
  let b := votingPeriodStartedLoop GetBlockHeight (blockTurns.map BlockTurn.afterStop)
  let p := paramsLoop cached (paramsTurns.map ParamsTurn.afterStop)
  if waitGroupCounter b.2 p.2.2 = 0 then some (b.1, p.2.1) else none

/-! ## Example data -/

/-- A child that has no fresh price: every pair is answered with a price that is not valid. -/
def staleBinance : PriceProvider :=
  ⟨fun pair => ⟨pair, ⟨0⟩, "binance", false⟩⟩

/-- A second child without a fresh price; it still reports the last value it saw. -/
def staleBitfinex : PriceProvider :=
  ⟨fun pair => ⟨pair, ⟨4611686018427387904⟩, "bitfinex", false⟩⟩

/-- A child with a fresh price (the bit pattern of `1.0`). -/
def liveOkex : PriceProvider :=
  ⟨fun pair => ⟨pair, ⟨4607182418800017408⟩, "okex", true⟩⟩

/-- Another child with a fresh price (the bit pattern of `2.0`). -/
def liveBybit : PriceProvider :=
  ⟨fun pair => ⟨pair, ⟨4611686018427387904⟩, "bybit", true⟩⟩

/-- An aggregate whose children are all without a fresh price. -/
def outage : AggregatePriceProvider := ⟨[staleBinance, staleBitfinex]⟩

/-- A traversal of `outage` that visits the second child first. -/
def outageOrder : RangeOrder outage :=
  ⟨[staleBitfinex, staleBinance], List.Perm.swap staleBinance staleBitfinex []⟩

/-- An aggregate with one stale child and two live ones. -/
def mixed : AggregatePriceProvider := ⟨[staleBinance, liveOkex, liveBybit]⟩

/-- A traversal of `mixed` that visits the stale child, then the third, then the second. -/
def mixedOrder : RangeOrder mixed :=
  ⟨[staleBinance, liveBybit, liveOkex],
    List.Perm.cons staleBinance (List.Perm.swap liveOkex liveBybit [])⟩

/-- A feeder for one pair whose provider answers every request with a price that
names another pair. -/
def mislabelling : Feeder Unit :=
  { params := ⟨["ubtc:unusd"], 30⟩
    priceProvider := ()
    GetPrice := fun st _ => (⟨"ueth:unusd", ⟨4607182418800017408⟩, "mock-source", true⟩, st) }

/-- Helpers of a call whose submission is accepted; the prevote is stood for by a
number made of the salt drawn and the number of prices. -/
def acceptingEnv (salt : Nat) : SendEnv Nat :=
  ⟨fun prices _ _ => salt + prices.length, fun _ _ _ _ => .ok ⟨"6A1F"⟩⟩

/-- Helpers of a call whose submission fails. -/
def rejectingEnv (salt : Nat) : SendEnv Nat :=
  ⟨fun prices _ _ => salt + prices.length, fun _ _ _ _ => .error "account sequence mismatch"⟩

/-- Three calls in a row: accepted, failed, accepted. -/
def threeCalls : List (SendCall Nat) :=
  [⟨acceptingEnv 100, ⟨10⟩, []⟩, ⟨rejectingEnv 200, ⟨20⟩, []⟩, ⟨acceptingEnv 300, ⟨30⟩, []⟩]

/-- The feeder of `TestVotingPeriod` (`feeder_test.go:47`): two pairs, a valid price for
the first (`100000.8`) and a price that is not valid, with the value `7000.11`, for the
second. -/
def testFeeder : Feeder Unit :=
  { params := ⟨["ubtc:unusd", "ueth:unusd"], 0⟩
    priceProvider := ()
    GetPrice := fun st p =>
      if p = "ubtc:unusd" then (⟨"ubtc:unusd", ⟨4681608415859756237⟩, "mock-source", true⟩, st)
      else (⟨"ueth:unusd", ⟨4664418717041803919⟩, "mock-source", false⟩, st) }

/-! ## Properties of the price poster -/

theorem pendingAfter_nil {PV : Type} : pendingAfter ([] : List (SendRecord PV)) = none := rfl

theorem pendingAfter_cons {PV : Type} (r : SendRecord PV) (rs : List (SendRecord PV)) :
    pendingAfter (r :: rs)
      = (pendingAfter rs).or (if r.succeeded then some r.built else none) := by
  unfold pendingAfter
  rw [List.reverse_cons, List.find?_append, List.find?_singleton]
  cases List.find? (fun r => r.succeeded) rs.reverse <;> cases r.succeeded <;> simp

theorem SendPrices_ok {PV : Type} (env : SendEnv PV) (c : Client PV) (vp : VotingPeriod)
    (prices : List Price) (resp : TxResponse)
    (h : env.vote (env.newPrevote prices c.validator c.feeder) c.previousPrevote c.validator
      c.feeder = .ok resp) :
    c.SendPrices env vp prices
      = ({ c with previousPrevote := some (env.newPrevote prices c.validator c.feeder) },
          ⟨env.newPrevote prices c.validator c.feeder, c.previousPrevote, true⟩) := by
  simp [Client.SendPrices, h]

theorem SendPrices_error {PV : Type} (env : SendEnv PV) (c : Client PV) (vp : VotingPeriod)
    (prices : List Price) (err : String)
    (h : env.vote (env.newPrevote prices c.validator c.feeder) c.previousPrevote c.validator
      c.feeder = .error err) :
    c.SendPrices env vp prices
      = (c, ⟨env.newPrevote prices c.validator c.feeder, c.previousPrevote, false⟩) := by
  simp [Client.SendPrices, h]

theorem SendPrices_record {PV : Type} (env : SendEnv PV) (c : Client PV) (vp : VotingPeriod)
    (prices : List Price) :
    (c.SendPrices env vp prices).2.built = env.newPrevote prices c.validator c.feeder
      ∧ (c.SendPrices env vp prices).2.handed = c.previousPrevote := by
  cases h : env.vote (env.newPrevote prices c.validator c.feeder) c.previousPrevote c.validator
    c.feeder with
  | error err => rw [SendPrices_error env c vp prices err h]; exact ⟨rfl, rfl⟩
  | ok resp => rw [SendPrices_ok env c vp prices resp h]; exact ⟨rfl, rfl⟩

theorem SendPrices_next {PV : Type} (env : SendEnv PV) (c : Client PV) (vp : VotingPeriod)
    (prices : List Price) :
    (c.SendPrices env vp prices).1.previousPrevote
      = if (c.SendPrices env vp prices).2.succeeded then some (c.SendPrices env vp prices).2.built
        else c.previousPrevote := by
  cases h : env.vote (env.newPrevote prices c.validator c.feeder) c.previousPrevote c.validator
    c.feeder with
  | error err => rw [SendPrices_error env c vp prices err h]; simp
  | ok resp => rw [SendPrices_ok env c vp prices resp h]; simp

theorem sendAll_length {PV : Type} (calls : List (SendCall PV)) :
    ∀ c : Client PV, (c.sendAll calls).2.length = calls.length := by
  induction calls with
  | nil => intro c; rfl
  | cons call rest ih => intro c; simp [Client.sendAll, ih]

theorem SendPrices_identity {PV : Type} (env : SendEnv PV) (c : Client PV) (vp : VotingPeriod)
    (prices : List Price) :
    (c.SendPrices env vp prices).1.validator = c.validator
      ∧ (c.SendPrices env vp prices).1.feeder = c.feeder := by
  cases h : env.vote (env.newPrevote prices c.validator c.feeder) c.previousPrevote c.validator
    c.feeder with
  | error err => rw [SendPrices_error env c vp prices err h]; exact ⟨rfl, rfl⟩
  | ok resp => rw [SendPrices_ok env c vp prices resp h]; exact ⟨rfl, rfl⟩

theorem SendPrices_succeeded {PV : Type} (env : SendEnv PV) (c : Client PV) (vp : VotingPeriod)
    (prices : List Price) :
    (c.SendPrices env vp prices).2.succeeded = true
      ↔ ∃ resp : TxResponse,
          env.vote (env.newPrevote prices c.validator c.feeder) c.previousPrevote c.validator
            c.feeder = .ok resp := by
  cases h : env.vote (env.newPrevote prices c.validator c.feeder) c.previousPrevote c.validator
    c.feeder with
  | error err => rw [SendPrices_error env c vp prices err h]; simp
  | ok resp => rw [SendPrices_ok env c vp prices resp h]; simp

theorem sendAll_record {PV : Type} (calls : List (SendCall PV)) :
    ∀ (c : Client PV) (k : Nat) (call : SendCall PV) (r : SendRecord PV),
      calls[k]? = some call → (c.sendAll calls).2[k]? = some r →
      r.built = call.env.newPrevote call.prices c.validator c.feeder
        ∧ (r.succeeded = true
            ↔ ∃ resp : TxResponse,
                call.env.vote r.built r.handed c.validator c.feeder = .ok resp) := by
  induction calls with
  | nil => intro c k call r h; simp at h
  | cons first rest ih =>
    intro c k call r hcall hr
    cases k with
    | zero =>
      simp only [List.getElem?_cons_zero, Option.some.injEq] at hcall
      simp only [Client.sendAll, List.getElem?_cons_zero, Option.some.injEq] at hr
      subst hcall
      subst hr
      have hrec := SendPrices_record first.env c first.vp first.prices
      refine ⟨hrec.1, ?_⟩
      rw [hrec.1, hrec.2]
      exact SendPrices_succeeded first.env c first.vp first.prices
    | succ k =>
      simp only [List.getElem?_cons_succ] at hcall
      simp only [Client.sendAll, List.getElem?_cons_succ] at hr
      have hid := SendPrices_identity first.env c first.vp first.prices
      have := ih _ k call r hcall hr
      rw [hid.1, hid.2] at this
      exact this

theorem sendAll_handed {PV : Type} (calls : List (SendCall PV)) :
    ∀ (c : Client PV) (k : Nat) (r : SendRecord PV), (c.sendAll calls).2[k]? = some r →
      r.handed = (pendingAfter ((c.sendAll calls).2.take k)).or c.previousPrevote := by
  induction calls with
  | nil => intro c k r h; simp [Client.sendAll] at h
  | cons call rest ih =>
    intro c k r h
    cases k with
    | zero =>
      simp only [Client.sendAll, List.getElem?_cons_zero, Option.some.injEq] at h
      subst h
      simp [Client.sendAll, pendingAfter_nil, (SendPrices_record call.env c call.vp call.prices).2]
    | succ k =>
      simp only [Client.sendAll, List.getElem?_cons_succ] at h
      have h1 := ih _ k r h
      have h2 := SendPrices_next call.env c call.vp call.prices
      simp only [Client.sendAll, List.take_succ_cons, pendingAfter_cons]
      rw [h1, h2, Option.or_assoc]
      congr 1
      cases (c.SendPrices call.env call.vp call.prices).2.succeeded <;> simp

/-- C1: after `SendPrices` returns, the pending prevote (`previousPrevote`) is the newly
built prevote when the submission `vote` succeeded, and is the value it had before the
call when the submission failed, whatever the error; in both cases the validator and
the feeder of the client are as before, and a failed call leaves the whole client as
it was. -/
theorem SendPrices_replaces_only_on_success {PV : Type} (env : SendEnv PV) (c : Client PV)
    (vp : VotingPeriod) (prices : List Price) :
    (∀ resp : TxResponse,
        env.vote (env.newPrevote prices c.validator c.feeder) c.previousPrevote c.validator
          c.feeder = .ok resp →
        (c.SendPrices env vp prices).1.previousPrevote
          = some (env.newPrevote prices c.validator c.feeder))
      ∧ (∀ err : String,
        env.vote (env.newPrevote prices c.validator c.feeder) c.previousPrevote c.validator
          c.feeder = .error err →
        (c.SendPrices env vp prices).1.previousPrevote = c.previousPrevote
          ∧ (c.SendPrices env vp prices).1 = c)
      ∧ (c.SendPrices env vp prices).1.validator = c.validator
      ∧ (c.SendPrices env vp prices).1.feeder = c.feeder := by
  refine ⟨?_, ?_, ?_, ?_⟩
  · intro resp h
    simp [Client.SendPrices, h]
  · intro err h
    simp [Client.SendPrices, h]
  · cases h : env.vote (env.newPrevote prices c.validator c.feeder) c.previousPrevote
      c.validator c.feeder with
    | error err => rw [SendPrices_error env c vp prices err h]
    | ok resp => rw [SendPrices_ok env c vp prices resp h]
  · cases h : env.vote (env.newPrevote prices c.validator c.feeder) c.previousPrevote
      c.validator c.feeder with
    | error err => rw [SendPrices_error env c vp prices err h]
    | ok resp => rw [SendPrices_ok env c vp prices resp h]

/-- C2: in every sequence of `SendPrices` calls on a fresh client, whatever the
outcomes, the previous prevote handed to the submission of call `k` is the prevote
built by the most recent earlier call that succeeded and is absent when none did;
the record of call `k` holds the prevote built from the prices of that call and
whether its submission returned without error.
In particular the first call hands over none, the second hands over the prevote of a
successful first call, and when the second call fails the third still hands over the
prevote of the first. -/
theorem sendAll_reveals_last_success {PV : Type} (validator feeder : String)
    (calls : List (SendCall PV)) :
    ((Client.fresh PV validator feeder).sendAll calls).2.length = calls.length
      ∧ (∀ (k : Nat) (r : SendRecord PV),
          ((Client.fresh PV validator feeder).sendAll calls).2[k]? = some r →
          r.handed = pendingAfter (((Client.fresh PV validator feeder).sendAll calls).2.take k))
      ∧ (∀ (k : Nat) (call : SendCall PV) (r : SendRecord PV),
          calls[k]? = some call →
          ((Client.fresh PV validator feeder).sendAll calls).2[k]? = some r →
          r.built = call.env.newPrevote call.prices validator feeder
            ∧ (r.succeeded = true
                ↔ ∃ resp : TxResponse,
                    call.env.vote r.built r.handed validator feeder = .ok resp))
      ∧ (∀ r1 : SendRecord PV,
          ((Client.fresh PV validator feeder).sendAll calls).2[0]? = some r1 → r1.handed = none)
      ∧ (∀ r1 r2 : SendRecord PV,
          ((Client.fresh PV validator feeder).sendAll calls).2[0]? = some r1 →
          ((Client.fresh PV validator feeder).sendAll calls).2[1]? = some r2 →
          r1.succeeded = true → r2.handed = some r1.built)
      ∧ (∀ r1 r2 r3 : SendRecord PV,
          ((Client.fresh PV validator feeder).sendAll calls).2[0]? = some r1 →
          ((Client.fresh PV validator feeder).sendAll calls).2[1]? = some r2 →
          ((Client.fresh PV validator feeder).sendAll calls).2[2]? = some r3 →
          r1.succeeded = true → r2.succeeded = false → r3.handed = some r1.built) := by
  have key : ∀ (k : Nat) (r : SendRecord PV),
      ((Client.fresh PV validator feeder).sendAll calls).2[k]? = some r →
      r.handed = pendingAfter (((Client.fresh PV validator feeder).sendAll calls).2.take k) := by
    intro k r h
    have := sendAll_handed calls (Client.fresh PV validator feeder) k r h
    simpa [Client.fresh, Option.or_none] using this
  refine ⟨sendAll_length calls _, key,
    sendAll_record calls (Client.fresh PV validator feeder), ?_, ?_, ?_⟩
  · intro r1 h0
    simpa [pendingAfter_nil] using key 0 r1 h0
  · intro r1 r2 h0 h1 hs
    have := key 1 r2 h1
    rw [this]
    generalize ((Client.fresh PV validator feeder).sendAll calls).2 = recs at h0 h1
    match recs, h0, h1 with
    | a :: b :: rest, h0, h1 =>
      simp only [List.getElem?_cons_zero, Option.some.injEq] at h0
      subst h0
      simp [pendingAfter_cons, pendingAfter_nil, hs]
  · intro r1 r2 r3 h0 h1 h2 hs hf
    have := key 2 r3 h2
    rw [this]
    generalize ((Client.fresh PV validator feeder).sendAll calls).2 = recs at h0 h1 h2
    match recs, h0, h1, h2 with
    | a :: b :: d :: rest, h0, h1, h2 =>
      simp only [List.getElem?_cons_zero, List.getElem?_cons_succ, Option.some.injEq] at h0 h1
      subst h0
      subst h1
      simp [pendingAfter_cons, pendingAfter_nil, hs, hf]

/-! ## Properties of the aggregate price provider -/

theorem rangeProviders_all_invalid (pair : AssetPair) (l : List PriceProvider)
    (h : ∀ c ∈ l, (c.GetPrice pair).Valid = false) : rangeProviders l pair = (none, l) := by
  induction l with
  | nil => rfl
  | cons c rest ih =>
    have hc : (c.GetPrice pair).Valid = false := h c (List.mem_cons_self c rest)
    have hrest := ih (fun d hd => h d (List.mem_cons_of_mem c hd))
    simp [rangeProviders, hc, hrest]

theorem rangeProviders_first_valid (pair : AssetPair) (pre : List PriceProvider)
    (c : PriceProvider) (post : List PriceProvider)
    (hpre : ∀ d ∈ pre, (d.GetPrice pair).Valid = false) (hc : (c.GetPrice pair).Valid = true) :
    rangeProviders (pre ++ c :: post) pair = (some (c.GetPrice pair), pre ++ [c]) := by
  induction pre with
  | nil => simp [rangeProviders, hc]
  | cons d rest ih =>
    have hd : (d.GetPrice pair).Valid = false := hpre d (List.mem_cons_self d rest)
    have hrest := ih (fun e he => hpre e (List.mem_cons_of_mem d he))
    simp [rangeProviders, hd, hrest]

theorem rangeProviders_split (pair : AssetPair) (l : List PriceProvider) :
    (∀ c ∈ l, (c.GetPrice pair).Valid = false)
      ∨ ∃ pre c post, l = pre ++ c :: post ∧ (∀ d ∈ pre, (d.GetPrice pair).Valid = false)
          ∧ (c.GetPrice pair).Valid = true := by
  induction l with
  | nil => left; intro c hc; cases hc
  | cons c rest ih =>
    cases hv : (c.GetPrice pair).Valid with
    | true => exact Or.inr ⟨[], c, rest, rfl, fun d hd => (by cases hd), hv⟩
    | false =>
      rcases ih with hall | ⟨pre, d, post, hl, hpre, hd⟩
      · left
        intro e he
        rcases List.mem_cons.1 he with rfl | he
        · exact hv
        · exact hall e he
      · right
        refine ⟨c :: pre, d, post, by rw [hl]; rfl, ?_, hd⟩
        intro e he
        rcases List.mem_cons.1 he with rfl | he
        · exact hv
        · exact hpre e he

theorem GetPrice_all_invalid (a : AggregatePriceProvider) (order : RangeOrder a)
    (pair : AssetPair) (h : ∀ c ∈ order.visit, (c.GetPrice pair).Valid = false) :
    a.GetPrice order pair
      = ⟨{ SourceName := "missing", Pair := pair, Price := Float64.zero, Valid := false },
          order.visit⟩ := by
  simp [AggregatePriceProvider.GetPrice, rangeProviders_all_invalid pair order.visit h]

theorem GetPrice_first_valid (a : AggregatePriceProvider) (order : RangeOrder a)
    (pair : AssetPair) (pre : List PriceProvider) (c : PriceProvider)
    (post : List PriceProvider) (hsplit : order.visit = pre ++ c :: post)
    (hpre : ∀ d ∈ pre, (d.GetPrice pair).Valid = false) (hc : (c.GetPrice pair).Valid = true) :
    a.GetPrice order pair = ⟨c.GetPrice pair, pre ++ [c]⟩ := by
  simp [AggregatePriceProvider.GetPrice, hsplit,
    rangeProviders_first_valid pair pre c post hpre hc]

theorem GetPrice_valid_iff (a : AggregatePriceProvider) (order : RangeOrder a)
    (pair : AssetPair) :
    (a.GetPrice order pair).price.Valid = true
      ↔ ∃ c ∈ a.providers, (c.GetPrice pair).Valid = true := by
  rcases rangeProviders_split pair order.visit with hall | ⟨pre, c, post, hl, hpre, hc⟩
  · rw [GetPrice_all_invalid a order pair hall]
    constructor
    · intro h; cases h
    · rintro ⟨c, hc, hv⟩
      have := hall c (order.perm.mem_iff.2 hc)
      rw [this] at hv
      cases hv
  · rw [GetPrice_first_valid a order pair pre c post hl hpre hc]
    constructor
    · intro _
      refine ⟨c, order.perm.mem_iff.1 ?_, hc⟩
      rw [hl]
      simp
    · intro _
      exact hc

/-- C3: for every collection of children, every pair and every order in which the
children are visited, the aggregate `GetPrice` returns a price with `Valid = true`
if and only if at least one child returns a price with `Valid = true` for that pair;
so two visiting orders of the same children give results of the same validity. -/
theorem GetPrice_valid_iff_some_child_valid (a : AggregatePriceProvider) (pair : AssetPair) :
    (∀ order : RangeOrder a,
        (a.GetPrice order pair).price.Valid = true
          ↔ ∃ c ∈ a.providers, (c.GetPrice pair).Valid = true)
      ∧ (∀ order1 order2 : RangeOrder a,
        (a.GetPrice order1 pair).price.Valid = (a.GetPrice order2 pair).price.Valid) := by
  refine ⟨fun order => GetPrice_valid_iff a order pair, ?_⟩
  intro order1 order2
  have h1 := GetPrice_valid_iff a order1 pair
  have h2 := GetPrice_valid_iff a order2 pair
  have h12 : (a.GetPrice order1 pair).price.Valid = true
      ↔ (a.GetPrice order2 pair).price.Valid = true := h1.trans h2.symm
  cases hv1 : (a.GetPrice order1 pair).price.Valid <;>
    cases hv2 : (a.GetPrice order2 pair).price.Valid <;> simp_all

/-- C4: when no child returns a valid price for the pair (also when there is no child
at all), the aggregate `GetPrice` returns exactly the price with the pair asked for,
value `0`, source name `missing` and `Valid = false`, after every child was asked. -/
theorem GetPrice_missing_when_no_child_valid (a : AggregatePriceProvider)
    (order : RangeOrder a) (pair : AssetPair)
    (h : ∀ c ∈ a.providers, (c.GetPrice pair).Valid = false) :
    (a.GetPrice order pair).price
        = { Pair := pair, Price := Float64.zero, SourceName := "missing", Valid := false }
      ∧ (a.GetPrice order pair).queried = order.visit := by
  have hall : ∀ c ∈ order.visit, (c.GetPrice pair).Valid = false :=
    fun c hc => h c (order.perm.mem_iff.1 hc)
  rw [GetPrice_all_invalid a order pair hall]
  exact ⟨rfl, rfl⟩

/-- C5: in every visiting order in which some child returns a valid price, the
aggregate `GetPrice` returns the price of the first child of that order whose price is
valid, as that child returned it, and the children asked are exactly those up to and
including that child: none after it is asked. -/
theorem GetPrice_returns_first_valid_child (a : AggregatePriceProvider) (order : RangeOrder a)
    (pair : AssetPair) (pre : List PriceProvider) (c : PriceProvider)
    (post : List PriceProvider) (hsplit : order.visit = pre ++ c :: post)
    (hpre : ∀ d ∈ pre, (d.GetPrice pair).Valid = false) (hc : (c.GetPrice pair).Valid = true) :
    (a.GetPrice order pair).price = c.GetPrice pair
      ∧ (a.GetPrice order pair).queried = pre ++ [c]
      ∧ (a.GetPrice order pair).queried.length + post.length = a.providers.length := by
  rw [GetPrice_first_valid a order pair pre c post hsplit hpre hc]
  refine ⟨rfl, rfl, ?_⟩
  have := order.perm.length_eq
  rw [hsplit] at this
  simp only [List.length_append, List.length_cons, List.length_nil] at this ⊢
  omega

/-! ## Properties of the feeder -/

theorem askAll_length {σ : Type} (GetPrice : σ → AssetPair → Price × σ)
    (pairs : List AssetPair) : ∀ st : σ, (askAll GetPrice pairs st).1.length = pairs.length := by
  induction pairs with
  | nil => intro st; rfl
  | cons p rest ih => intro st; simp [askAll, ih]

theorem gatherStep_eq {σ : Type} (GetPrice : σ → AssetPair → Price × σ) (p : AssetPair)
    (st : σ) (filled : List Price) (t : Price) (todo : List Price) (tr : List FeederCall) :
    gatherStep GetPrice filled.length p (st, filled ++ t :: todo, tr)
      = ((GetPrice st p).2, (filled ++ [abstainIfInvalid (GetPrice st p).1]) ++ todo,
          tr ++ [FeederCall.GetPrice p (GetPrice st p).1]) := by
  unfold gatherStep abstainIfInvalid
  cases hv : (GetPrice st p).1.Valid <;> simp [hv]

theorem gatherLoop_eq {σ : Type} (GetPrice : σ → AssetPair → Price × σ)
    (pairs : List AssetPair) :
    ∀ (st : σ) (filled todo : List Price) (tr : List FeederCall),
      todo.length = pairs.length →
      gatherLoop GetPrice pairs filled.length (st, filled ++ todo, tr)
        = ((askAll GetPrice pairs st).2,
            filled ++ (askAll GetPrice pairs st).1.map abstainIfInvalid,
            tr ++ List.zipWith FeederCall.GetPrice pairs (askAll GetPrice pairs st).1) := by
  induction pairs with
  | nil =>
    intro st filled todo tr h
    have : todo = [] := List.length_eq_zero.1 h
    subst this
    simp [gatherLoop, askAll]
  | cons p rest ih =>
    intro st filled todo tr h
    match todo, h with
    | t :: todo, h =>
      have hlen : todo.length = rest.length := by simpa using h
      have hstep := gatherStep_eq GetPrice p st filled t todo tr
      have hnext := ih (GetPrice st p).2 (filled ++ [abstainIfInvalid (GetPrice st p).1]) todo
        (tr ++ [FeederCall.GetPrice p (GetPrice st p).1]) hlen
      simp only [List.length_append, List.length_cons, List.length_nil] at hnext
      simp only [gatherLoop, hstep, hnext, askAll]
      simp

theorem handleVotingPeriod_eq {σ : Type} (f : Feeder σ) (vp : VotingPeriod) :
    f.handleVotingPeriod vp
      = ({ f with priceProvider := (askAll f.GetPrice f.params.Pairs f.priceProvider).2 },
          List.zipWith FeederCall.GetPrice f.params.Pairs
              (askAll f.GetPrice f.params.Pairs f.priceProvider).1
            ++ [FeederCall.SendPrices vp
              ((askAll f.GetPrice f.params.Pairs f.priceProvider).1.map abstainIfInvalid)]) := by
  have h := gatherLoop_eq f.GetPrice f.params.Pairs f.priceProvider []
    (List.replicate f.params.Pairs.length zeroPrice) [] (by simp)
  simp only [List.length_nil, List.nil_append] at h
  simp only [Feeder.handleVotingPeriod, h]

theorem abstainIfInvalid_Pair (r : Price) : (abstainIfInvalid r).Pair = r.Pair := by
  unfold abstainIfInvalid
  cases r.Valid <;> rfl

theorem askAll_Pair {σ : Type} (GetPrice : σ → AssetPair → Price × σ)
    (hecho : ∀ (st : σ) (p : AssetPair), (GetPrice st p).1.Pair = p) (pairs : List AssetPair) :
    ∀ st : σ, (askAll GetPrice pairs st).1.map (fun r => r.Pair) = pairs := by
  induction pairs with
  | nil => intro st; rfl
  | cons p rest ih => intro st; simp [askAll, ih, hecho]

/-- C6 (as amended): `handleVotingPeriod` calls `GetPrice` once per pair of
`Params.Pairs`, in order, and then `SendPrices` exactly once, with the voting period
and a list of prices as long as `Params.Pairs`; entry `i` is the result obtained for
`Params.Pairs[i]`, as an abstain vote when it is not valid, and carries the pair of
that result, which is `Params.Pairs[i]` whenever the provider answers with the pair
it was asked for. -/
theorem handleVotingPeriod_calls_in_pair_order {σ : Type} (f : Feeder σ) (vp : VotingPeriod) :
    ∃ results prices : List Price,
      results = (askAll f.GetPrice f.params.Pairs f.priceProvider).1
        ∧ (f.handleVotingPeriod vp).2
            = List.zipWith FeederCall.GetPrice f.params.Pairs results
              ++ [FeederCall.SendPrices vp prices]
        ∧ results.length = f.params.Pairs.length
        ∧ prices.length = f.params.Pairs.length
        ∧ prices = results.map abstainIfInvalid
        ∧ prices.map (fun e => e.Pair) = results.map (fun r => r.Pair)
        ∧ ((∀ (st : σ) (p : AssetPair), (f.GetPrice st p).1.Pair = p) →
            prices.map (fun e => e.Pair) = f.params.Pairs)
        ∧ (f.handleVotingPeriod vp).1.params = f.params := by
  refine ⟨(askAll f.GetPrice f.params.Pairs f.priceProvider).1,
    (askAll f.GetPrice f.params.Pairs f.priceProvider).1.map abstainIfInvalid, rfl, ?_, ?_, ?_,
    rfl, ?_, ?_, ?_⟩
  · rw [handleVotingPeriod_eq]
  · exact askAll_length f.GetPrice f.params.Pairs f.priceProvider
  · rw [List.length_map]
    exact askAll_length f.GetPrice f.params.Pairs f.priceProvider
  · rw [List.map_map]
    apply List.map_congr_left
    intro r _
    exact abstainIfInvalid_Pair r
  · intro hecho
    rw [List.map_map]
    have h := askAll_Pair f.GetPrice hecho f.params.Pairs f.priceProvider
    refine Eq.trans ?_ h
    apply List.map_congr_left
    intro r _
    exact abstainIfInvalid_Pair r
  · rw [handleVotingPeriod_eq]

theorem askAll_getElem {σ : Type} (GetPrice : σ → AssetPair → Price × σ)
    (pairs : List AssetPair) :
    ∀ (st : σ) (i : Nat) (p : AssetPair), pairs[i]? = some p →
      (askAll GetPrice pairs st).1[i]?
        = some (GetPrice (askAll GetPrice (pairs.take i) st).2 p).1 := by
  induction pairs with
  | nil => intro st i p h; simp at h
  | cons q rest ih =>
    intro st i p h
    cases i with
    | zero =>
      simp only [List.getElem?_cons_zero, Option.some.injEq] at h
      subst h
      simp [askAll]
    | succ i =>
      simp only [List.getElem?_cons_succ] at h
      have := ih (GetPrice st q).2 i p h
      simpa [askAll] using this

theorem abstainIfInvalid_cases (r : Price) :
    (r.Valid = true → abstainIfInvalid r = r)
      ∧ (r.Valid = false →
          abstainIfInvalid r
            = { Pair := r.Pair, Price := Float64.zero, SourceName := r.SourceName,
                Valid := false }) := by
  constructor
  · intro hv
    simp [abstainIfInvalid, hv]
  · intro hv
    simp [abstainIfInvalid, hv]

theorem handleVotingPeriod_trace_entry {σ : Type} (f : Feeder σ) (vp : VotingPeriod)
    (i : Nat) (p : AssetPair) (r : Price)
    (h : (f.handleVotingPeriod vp).2[i]? = some (FeederCall.GetPrice p r)) :
    ((askAll f.GetPrice f.params.Pairs f.priceProvider).1.map abstainIfInvalid)[i]?
      = some (abstainIfInvalid r) := by
  rw [handleVotingPeriod_eq] at h
  simp only at h
  have hlen := askAll_length f.GetPrice f.params.Pairs f.priceProvider
  by_cases hi : i < f.params.Pairs.length
  · have hi2 : i < (askAll f.GetPrice f.params.Pairs f.priceProvider).1.length := by omega
    rw [List.getElem?_append_left (by simp; omega)] at h
    rw [List.getElem?_eq_getElem (by simp; omega)] at h
    simp only [List.getElem_zipWith, Option.some.injEq, FeederCall.GetPrice.injEq] at h
    rw [List.getElem?_map, List.getElem?_eq_getElem hi2, h.2]
    rfl
  · exfalso
    rw [List.getElem?_append_right (by simp; omega)] at h
    simp only [List.length_zipWith, hlen, Nat.min_self] at h
    cases hk : i - f.params.Pairs.length with
    | zero => rw [hk] at h; simp at h
    | succ k => rw [hk] at h; simp at h

/-- C7: during a voting period, for every index `i` of `Params.Pairs` the price that
the provider's `GetPrice` returns for `Params.Pairs[i]`, asked in the state the
earlier calls left, is recorded as the `i`-th call and is passed to `SendPrices` as
entry `i`: unchanged when it is valid, and with its value forced to `0` and its pair,
source name and `Valid = false` kept when it is not. The entry is determined by that
price alone, and no other `GetPrice` result reaches the list. -/
theorem handleVotingPeriod_entry_is_abstain_vote {σ : Type} (f : Feeder σ) (vp : VotingPeriod) :
    ∃ prices : List Price,
      (f.handleVotingPeriod vp).2
          = List.zipWith FeederCall.GetPrice f.params.Pairs
              (askAll f.GetPrice f.params.Pairs f.priceProvider).1
            ++ [FeederCall.SendPrices vp prices]
        ∧ prices.length = f.params.Pairs.length
        ∧ (∀ (i : Nat) (p : AssetPair), f.params.Pairs[i]? = some p →
            ∃ r e : Price,
              r = (f.GetPrice (askAll f.GetPrice (f.params.Pairs.take i) f.priceProvider).2 p).1
                ∧ (askAll f.GetPrice f.params.Pairs f.priceProvider).1[i]? = some r
                ∧ (f.handleVotingPeriod vp).2[i]? = some (FeederCall.GetPrice p r)
                ∧ prices[i]? = some e
                ∧ (r.Valid = true → e = r)
                ∧ (r.Valid = false →
                    e = { Pair := r.Pair, Price := Float64.zero, SourceName := r.SourceName,
                          Valid := false }))
        ∧ (f.handleVotingPeriod vp).2.getLast? = some (FeederCall.SendPrices vp prices)
        ∧ (∀ (i : Nat) (p : AssetPair) (r : Price),
            (f.handleVotingPeriod vp).2[i]? = some (FeederCall.GetPrice p r) →
            ∃ e : Price, prices[i]? = some e
              ∧ (r.Valid = true → e = r)
              ∧ (r.Valid = false →
                  e = { Pair := r.Pair, Price := Float64.zero, SourceName := r.SourceName,
                        Valid := false })) := by
  have hlen := askAll_length f.GetPrice f.params.Pairs f.priceProvider
  refine ⟨(askAll f.GetPrice f.params.Pairs f.priceProvider).1.map abstainIfInvalid,
    ?_, ?_, ?_, ?_, ?_⟩
  · rw [handleVotingPeriod_eq]
  · rw [List.length_map]
    exact hlen
  · intro i p hp
    have hr := askAll_getElem f.GetPrice f.params.Pairs f.priceProvider i p hp
    have hi : i < f.params.Pairs.length := by
      rcases List.getElem?_eq_some.1 hp with ⟨hi, _⟩
      exact hi
    refine ⟨_, abstainIfInvalid
      (f.GetPrice (askAll f.GetPrice (f.params.Pairs.take i) f.priceProvider).2 p).1,
      rfl, hr, ?_, ?_, (abstainIfInvalid_cases _).1, (abstainIfInvalid_cases _).2⟩
    · rw [handleVotingPeriod_eq]
      simp only
      rw [List.getElem?_append_left (by simp; omega), List.getElem?_zipWith, hp, hr]
    · rw [List.getElem?_map, hr]
      rfl
  · rw [handleVotingPeriod_eq]
    simp
  · intro i p r h
    exact ⟨abstainIfInvalid r, handleVotingPeriod_trace_entry f vp i p r h,
      (abstainIfInvalid_cases r).1, (abstainIfInvalid_cases r).2⟩

/-! ## Properties of the event stream -/

theorem Params.Equal_iff (p q : Params) : p.Equal q = true ↔ p = q := by
  cases p with
  | mk pairs1 blocks1 =>
    cases q with
    | mk pairs2 blocks2 =>
      simp only [Params.Equal, Bool.and_eq_true, beq_iff_eq, Params.mk.injEq]
      exact And.comm

theorem destutter_head {α : Type} (R : α → α → Prop) [DecidableRel R] (l : List α) :
    ∀ a : α, List.destutter' R a l = a :: (List.destutter' R a l).tail := by
  induction l with
  | nil => intro a; rfl
  | cons h l ih =>
    intro a
    by_cases hR : R a h
    · rw [List.destutter'_cons_pos l hR]
      rfl
    · rw [List.destutter'_cons_neg l hR]
      exact ih a

theorem paramsStep_sent_some (c newParams : Params) :
    paramsStep (some c) (.ok newParams) .sent
      = (some newParams, if c = newParams then [] else [newParams]) := by
  by_cases h : c = newParams
  · have hE : c.Equal newParams = true := (Params.Equal_iff c newParams).2 h
    simp only [paramsStep, hE, if_true, if_pos h]
  · have hE : c.Equal newParams = false := by
      cases hb : c.Equal newParams with
      | false => rfl
      | true => exact absurd ((Params.Equal_iff c newParams).1 hb) h
    simp [paramsStep, hE, h]

theorem paramsLoop_sent_some (fetches : List Params) :
    ∀ c : Params,
      (paramsLoop (some c) (fetches.map (fun q => ParamsEvent.tick (.ok q) .sent))).2.1
        = (List.destutter' (fun a b => a ≠ b) c fetches).tail := by
  induction fetches with
  | nil => intro c; rfl
  | cons h l ih =>
    intro c
    simp only [List.map_cons, paramsLoop, paramsStep_sent_some, ih h]
    by_cases hc : c = h
    · subst hc
      rw [List.destutter'_cons_neg l (by simp)]
      simp
    · rw [List.destutter'_cons_pos l hc]
      rw [if_neg hc, List.tail_cons]
      exact (destutter_head (fun a b => a ≠ b) l h).symm

/-- C8 (as amended): with parameters of period `P > 0` cached, a new-block message of
height `h` with `1 ≤ h` and `h + 1` within `uint64` makes the block-watch loop send a
voting period exactly when `(h + 1) % P = 0`, once, with the value `h + 1`, provided
the inner `select` sends; when the inner `select` observes the stop signal nothing is
sent; and a message of height `0` sends nothing, whatever is cached and whatever the
inner `select` would do. -/
theorem votingPeriodStartedStep_fires_on_period
    (GetBlockHeight : Message → Except String Nat) (msg : Message) (pairs : List AssetPair)
    (P h : Nat) (hmsg : GetBlockHeight msg = .ok h) (hpos : 1 ≤ h) (hfit : h + 1 < 2 ^ 64)
    (hP : 0 < P) :
    votingPeriodStartedStep GetBlockHeight (some ⟨pairs, P⟩) msg .sent
        = .ok (if (h + 1) % P = 0 then [⟨h + 1⟩] else [])
      ∧ votingPeriodStartedStep GetBlockHeight (some ⟨pairs, P⟩) msg .stopSignal = .ok []
      ∧ (∀ (msg0 : Message) (loaded0 : Option Params) (sel0 : Resolution),
          GetBlockHeight msg0 = .ok 0 →
          votingPeriodStartedStep GetBlockHeight loaded0 msg0 sel0 = .ok []) := by
  have h0 : ¬ h ≤ 0 := by omega
  have hP0 : P ≠ 0 := by omega
  have hmod : (h + 1) % 18446744073709551616 = h + 1 :=
    Nat.mod_eq_of_lt (by norm_num at hfit; exact hfit)
  refine ⟨?_, ?_, ?_⟩
  · by_cases hm : (h + 1) % P = 0
    · simp [votingPeriodStartedStep, hmsg, h0, hP0, hmod, hm]
    · simp [votingPeriodStartedStep, hmsg, h0, hP0, hmod, hm]
  · by_cases hm : (h + 1) % P = 0
    · simp [votingPeriodStartedStep, hmsg, h0, hP0, hmod, hm]
    · simp [votingPeriodStartedStep, hmsg, h0, hP0, hmod, hm]
  · intro msg0 loaded0 sel0 hzero
    simp [votingPeriodStartedStep, hzero]

/-- C9 (as amended): on a successful fetch the params-poll loop always stores the
fetched value in the cache; it sends nothing when the value equals the cached one, so
two equal values fetched one after the other never give a second signal; when the
value differs from the cache, or nothing is cached, it sends the value (a value
fetched again after a different one included), and drops it only when the inner
`select` observes the stop signal. Over any sequence of successful fetches whose sends
all go through, starting with nothing cached, the values sent are the fetched values
with adjacent repetitions removed, so no two values sent in a row are equal. -/
theorem paramsStep_sends_only_changes (cached : Option Params) (newParams : Params) :
    (∀ sel : Resolution, (paramsStep cached (.ok newParams) sel).1 = some newParams)
      ∧ (cached = some newParams →
          ∀ sel : Resolution, (paramsStep cached (.ok newParams) sel).2 = [])
      ∧ (cached ≠ some newParams →
          (paramsStep cached (.ok newParams) .sent).2 = [newParams]
            ∧ (paramsStep cached (.ok newParams) .stopSignal).2 = [])
      ∧ (∀ fetches : List Params,
          (paramsLoop none (fetches.map (fun q => ParamsEvent.tick (.ok q) .sent))).2.1
              = fetches.destutter (fun a b => a ≠ b)
            ∧ List.Chain' (fun a b => a ≠ b)
                (paramsLoop none (fetches.map (fun q => ParamsEvent.tick (.ok q) .sent))).2.1) := by
  refine ⟨?_, ?_, ?_, ?_⟩
  · intro sel
    cases cached with
    | none => cases sel <;> rfl
    | some old =>
      cases hE : old.Equal newParams <;> cases sel <;> simp [paramsStep, hE]
  · intro hc sel
    subst hc
    have hE : newParams.Equal newParams = true := (Params.Equal_iff _ _).2 rfl
    simp [paramsStep, hE]
  · intro hc
    cases cached with
    | none => exact ⟨rfl, rfl⟩
    | some old =>
      have hne : old ≠ newParams := fun h => hc (by rw [h])
      have hE : old.Equal newParams = false := by
        cases hb : old.Equal newParams with
        | false => rfl
        | true => exact absurd ((Params.Equal_iff old newParams).1 hb) hne
      simp [paramsStep, hE]
  · intro fetches
    have heq : (paramsLoop none (fetches.map (fun q => ParamsEvent.tick (.ok q) .sent))).2.1
        = fetches.destutter (fun a b => a ≠ b) := by
      cases fetches with
      | nil => rfl
      | cons h l =>
        simp only [List.map_cons, paramsLoop, paramsStep, paramsLoop_sent_some l h]
        exact (destutter_head (fun a b => a ≠ b) l h).symm
    refine ⟨heq, ?_⟩
    rw [heq]
    exact List.destutter_is_chain' (fun a b => a ≠ b) fetches

/-- C10: startup (`Run`, through `initParamsOrDie`) panics if and only if the timer of
`InitTimeout` fires before a value arrives on `ParamsUpdate`; when a value arrives
first, startup does not panic, the stored parameters are exactly that value and
nothing else of the feeder has changed when the main loop is started. -/
theorem Run_panics_iff_init_timeout {σ : Type} (f : Feeder σ) (init : InitSelect)
    (events : List FeederEvent) :
    ((∃ e : String, f.Run init events = .error e) ↔ init = .timeAfter)
      ∧ ((∃ e : String, f.initParamsOrDie init = .error e) ↔ init = .timeAfter)
      ∧ (∀ initParams : Params, init = .paramsUpdate initParams →
          ∃ started : Feeder σ,
            f.initParamsOrDie init = .ok started
              ∧ started.params = initParams
              ∧ started.priceProvider = f.priceProvider
              ∧ f.Run init events = .ok (started.loop events)) := by
  cases init with
  | paramsUpdate initParams =>
    refine ⟨?_, ?_, ?_⟩
    · constructor
      · rintro ⟨e, he⟩
        simp [Feeder.Run, Feeder.initParamsOrDie] at he
      · intro h
        cases h
    · constructor
      · rintro ⟨e, he⟩
        simp [Feeder.initParamsOrDie] at he
      · intro h
        cases h
    · intro q hq
      cases hq
      exact ⟨f.handleParamsUpdate initParams, rfl, rfl, rfl, rfl⟩
  | timeAfter =>
    refine ⟨?_, ?_, ?_⟩
    · exact ⟨fun _ => rfl, fun _ => ⟨_, rfl⟩⟩
    · exact ⟨fun _ => rfl, fun _ => ⟨_, rfl⟩⟩
    · intro q hq
      cases hq

/-! ## Evaluations on concrete inputs -/

/-- Witness of C1: a failed call on a client that holds the prevote `7` leaves `7`
pending. -/
theorem SendPrices_replaces_only_on_success_witness :
    ((⟨"nibivaloper1", "nibi1", some 7⟩ : Client Nat).SendPrices (rejectingEnv 200) ⟨20⟩
        []).1.previousPrevote = some 7
      ∧ ((⟨"nibivaloper1", "nibi1", some 7⟩ : Client Nat).SendPrices (acceptingEnv 300) ⟨30⟩
        []).1.previousPrevote = some 300 :=
  ⟨((SendPrices_replaces_only_on_success (rejectingEnv 200) ⟨"nibivaloper1", "nibi1", some 7⟩
      ⟨20⟩ []).2.1 "account sequence mismatch" rfl).1,
    (SendPrices_replaces_only_on_success (acceptingEnv 300) ⟨"nibivaloper1", "nibi1", some 7⟩
      ⟨30⟩ []).1 ⟨"6A1F"⟩ rfl⟩

/-- Witness of C2: after an accepted first call and a failed second call, the third
call hands over the prevote of the first. -/
theorem sendAll_reveals_last_success_witness :
    ((Client.fresh Nat "nibivaloper1" "nibi1").sendAll threeCalls).2[2]?
        = some ⟨300, some 100, true⟩
      ∧ (⟨300, some 100, true⟩ : SendRecord Nat).handed = some 100 :=
  ⟨rfl,
    (sendAll_reveals_last_success "nibivaloper1" "nibi1" threeCalls).2.2.2.2.2
      ⟨100, none, true⟩ ⟨200, some 100, false⟩ ⟨300, some 100, true⟩ rfl rfl rfl rfl rfl⟩

/-- The scenario of `TestVotingPeriod`: the valid price is passed on as it is, the
other one with its value set to `0`, in the order of the pairs. -/
theorem handleVotingPeriod_test_scenario :
    (testFeeder.handleVotingPeriod ⟨100⟩).2
      = [FeederCall.GetPrice "ubtc:unusd"
            ⟨"ubtc:unusd", ⟨4681608415859756237⟩, "mock-source", true⟩,
          FeederCall.GetPrice "ueth:unusd"
            ⟨"ueth:unusd", ⟨4664418717041803919⟩, "mock-source", false⟩,
          FeederCall.SendPrices ⟨100⟩
            [⟨"ubtc:unusd", ⟨4681608415859756237⟩, "mock-source", true⟩,
              ⟨"ueth:unusd", ⟨0⟩, "mock-source", false⟩]] := by
  rfl

/-- Witness of C7 on the feeder of the test: the valid price of the first pair reaches
`SendPrices` as it is, the price of the second pair, which is not valid, with its value
set to `0`. -/
theorem handleVotingPeriod_entry_is_abstain_vote_witness :
    ∃ prices : List Price,
      (testFeeder.handleVotingPeriod ⟨100⟩).2.getLast?
          = some (FeederCall.SendPrices ⟨100⟩ prices)
        ∧ prices.length = 2
        ∧ prices[0]? = some ⟨"ubtc:unusd", ⟨4681608415859756237⟩, "mock-source", true⟩
        ∧ prices[1]? = some ⟨"ueth:unusd", Float64.zero, "mock-source", false⟩ := by
  obtain ⟨prices, _, hlen, hall, hlast, _⟩ :=
    handleVotingPeriod_entry_is_abstain_vote testFeeder ⟨100⟩
  refine ⟨prices, hlast, hlen, ?_, ?_⟩
  · obtain ⟨r, e, hr, _, _, he, hvalid, _⟩ := hall 0 "ubtc:unusd" rfl
    have hr0 : r = ⟨"ubtc:unusd", ⟨4681608415859756237⟩, "mock-source", true⟩ := by
      rw [hr]
      rfl
    rw [he, hvalid (by rw [hr0]), hr0]
  · obtain ⟨r, e, hr, _, _, he, _, hinvalid⟩ := hall 1 "ueth:unusd" rfl
    have hr1 : r = ⟨"ueth:unusd", ⟨4664418717041803919⟩, "mock-source", false⟩ := by
      rw [hr]
      rfl
    rw [he, hinvalid (by rw [hr1]), hr1]

/-- Witness of C4 on an aggregate of two stale children, visited second child first. -/
theorem GetPrice_missing_when_no_child_valid_witness :
    (∀ c ∈ outage.providers, (c.GetPrice "ubtc:unusd").Valid = false)
      ∧ (outage.GetPrice outageOrder "ubtc:unusd").price
          = { Pair := "ubtc:unusd", Price := Float64.zero, SourceName := "missing",
              Valid := false }
      ∧ (outage.GetPrice outageOrder "ubtc:unusd").queried = outageOrder.visit :=
  ⟨by simp [outage, staleBinance, staleBitfinex],
    GetPrice_missing_when_no_child_valid outage outageOrder "ubtc:unusd"
      (by simp [outage, staleBinance, staleBitfinex])⟩

/-- Witness of C5 on an aggregate whose first visited child is stale and whose second
visited child is live. -/
theorem GetPrice_returns_first_valid_child_witness :
    (mixedOrder.visit = [staleBinance] ++ liveBybit :: [liveOkex]
        ∧ (∀ d ∈ [staleBinance], (d.GetPrice "ubtc:unusd").Valid = false)
        ∧ (liveBybit.GetPrice "ubtc:unusd").Valid = true)
      ∧ (mixed.GetPrice mixedOrder "ubtc:unusd").price
          = { Pair := "ubtc:unusd", Price := ⟨4611686018427387904⟩, SourceName := "bybit",
              Valid := true }
      ∧ (mixed.GetPrice mixedOrder "ubtc:unusd").queried = [staleBinance, liveBybit]
      ∧ (mixed.GetPrice mixedOrder "ubtc:unusd").queried.length + [liveOkex].length
          = mixed.providers.length :=
  ⟨⟨rfl, by simp [staleBinance], rfl⟩,
    GetPrice_returns_first_valid_child mixed mixedOrder "ubtc:unusd" [staleBinance] liveBybit
      [liveOkex] rfl (by simp [staleBinance]) rfl⟩

/-- Counterexample to C6 as stated: the provider of `mislabelling` answers the request
for `ubtc:unusd` with a price that names `ueth:unusd`; the list handed to `SendPrices`
then does not carry the pairs of `Params.Pairs`. -/
theorem handleVotingPeriod_pair_not_forced :
    (mislabelling.handleVotingPeriod ⟨100⟩).2
        = [FeederCall.GetPrice "ubtc:unusd"
              ⟨"ueth:unusd", ⟨4607182418800017408⟩, "mock-source", true⟩,
            FeederCall.SendPrices ⟨100⟩
              [⟨"ueth:unusd", ⟨4607182418800017408⟩, "mock-source", true⟩]]
      ∧ List.map (fun e => e.Pair)
            [(⟨"ueth:unusd", ⟨4607182418800017408⟩, "mock-source", true⟩ : Price)]
          ≠ mislabelling.params.Pairs := by
  constructor
  · rfl
  · decide

/-- Witness of C8 as amended: height `9` with period `5` sends the voting period `10`. -/
theorem votingPeriodStartedStep_fires_on_period_witness :
    votingPeriodStartedStep (fun _ => .ok 9) (some ⟨["ubtc:unusd"], 5⟩) [] .sent = .ok [⟨10⟩]
      ∧ votingPeriodStartedStep (fun _ => .ok 9) (some ⟨["ubtc:unusd"], 5⟩) [] .stopSignal
          = .ok [] :=
  ⟨(votingPeriodStartedStep_fires_on_period (fun _ => .ok 9) [] ["ubtc:unusd"] 5 9 rfl
      (by decide) (by norm_num) (by decide)).1,
    (votingPeriodStartedStep_fires_on_period (fun _ => .ok 9) [] ["ubtc:unusd"] 5 9 rfl
      (by decide) (by norm_num) (by decide)).2.1⟩

/-- Counterexample to C8 as stated: a message of height `0` with period `1` sends
nothing although `(0 + 1) % 1 = 0`; a message of height `9` with period `5` sends
nothing when the inner `select` observes the stop signal; with period `0` the step
panics; and at the largest `uint64` height the sum wraps to `0`. -/
theorem votingPeriodStartedStep_not_exactly_on_period :
    (votingPeriodStartedStep (fun _ => .ok 0) (some ⟨["ubtc:unusd"], 1⟩) [] .sent = .ok []
        ∧ (0 + 1) % 1 = 0)
      ∧ (votingPeriodStartedStep (fun _ => .ok 9) (some ⟨["ubtc:unusd"], 5⟩) [] .stopSignal
          = .ok [] ∧ (9 + 1) % 5 = 0)
      ∧ votingPeriodStartedStep (fun _ => .ok 9) (some ⟨["ubtc:unusd"], 0⟩) [] .sent
          = .error "integer divide by zero"
      ∧ (votingPeriodStartedStep (fun _ => .ok 18446744073709551615)
            (some ⟨["ubtc:unusd"], 3⟩) [] .sent = .ok [⟨0⟩]
          ∧ (18446744073709551615 + 1) % 3 ≠ 0) := by
  refine ⟨⟨rfl, rfl⟩, ⟨rfl, rfl⟩, rfl, ?_, by decide⟩
  simp [votingPeriodStartedStep]

/-- Counterexample to C9 as stated: the same parameters are fetched at two different
times, with other parameters fetched in between; every send goes through, and the
loop signals them both times. -/
theorem paramsLoop_signals_a_value_fetched_again :
    (paramsLoop none
        [ParamsEvent.tick (.ok ⟨["ubtc:unusd"], 30⟩) .sent,
          ParamsEvent.tick (.ok ⟨["ubtc:unusd"], 50⟩) .sent,
          ParamsEvent.tick (.ok ⟨["ubtc:unusd"], 30⟩) .sent]).2.1
      = [⟨["ubtc:unusd"], 30⟩, ⟨["ubtc:unusd"], 50⟩, ⟨["ubtc:unusd"], 30⟩] := by
  rfl

/-- The drop on shutdown in `paramsLoop`: with nothing cached, a fetched value replaces
the cache but is not sent when the inner `select` observes the stop signal. -/
theorem paramsStep_drops_on_stop :
    paramsStep none (.ok ⟨["ubtc:unusd"], 30⟩) .stopSignal
      = (some ⟨["ubtc:unusd"], 30⟩, []) := by
  rfl

/-! ## The feeder on a change of parameters -/

/-- C11: handling a change of parameters leaves the stored parameters equal to the
value received, whatever was stored before, and changes nothing else of the feeder:
the price provider is as before and no call is made on a collaborator. -/
theorem handleParamsUpdate_replaces_params_only {σ : Type} (f : Feeder σ) (p : Params) :
    (f.handleParamsUpdate p).params = p
      ∧ (f.handleParamsUpdate p).priceProvider = f.priceProvider
      ∧ (f.handleParamsUpdate p).GetPrice = f.GetPrice
      ∧ (∀ old : Params,
          ({ f with params := old } : Feeder σ).handleParamsUpdate p = f.handleParamsUpdate p)
      ∧ f.loop [FeederEvent.paramsUpdate p] = (f.handleParamsUpdate p, [])
      ∧ (∀ rest : List FeederEvent,
          f.loop (FeederEvent.paramsUpdate p :: rest) = (f.handleParamsUpdate p).loop rest) :=
  ⟨rfl, rfl, rfl, fun _ => rfl, rfl, fun _ => rfl⟩

/-! ## The loops of the event stream on messages and ticks that change nothing -/

theorem votingPeriodStartedStep_none (GetBlockHeight : Message → Except String Nat)
    (msg : Message) (sel : Resolution) :
    votingPeriodStartedStep GetBlockHeight none msg sel = .ok [] := by
  unfold votingPeriodStartedStep
  cases GetBlockHeight msg with
  | error e => rfl
  | ok blockHeight =>
    by_cases h0 : blockHeight ≤ 0
    · simp [h0]
    · simp [h0]

theorem votingPeriodStartedStep_error (GetBlockHeight : Message → Except String Nat)
    (loaded : Option Params) (msg : Message) (sel : Resolution) (e : String)
    (h : votingPeriodStartedStep GetBlockHeight loaded msg sel = .error e) :
    ∃ q : Params, loaded = some q ∧ q.VotePeriodBlocks = 0 := by
  cases loaded with
  | none => rw [votingPeriodStartedStep_none] at h; cases h
  | some q =>
    refine ⟨q, rfl, ?_⟩
    by_contra hq
    unfold votingPeriodStartedStep at h
    cases hG : GetBlockHeight msg with
    | error e1 => simp [hG] at h
    | ok blockHeight =>
      by_cases h0 : blockHeight ≤ 0
      · simp [hG, h0] at h
      · by_cases hm : (blockHeight + 1) % 18446744073709551616 % q.VotePeriodBlocks = 0
        · cases sel <;> simp [hG, h0, hq, hm] at h
        · simp [hG, h0, hq, hm] at h

theorem votingPeriodStartedLoop_never_panics (GetBlockHeight : Message → Except String Nat)
    (events : List BlockWatchEvent)
    (hpos : ∀ (m : Message) (l : Option Params) (s : Resolution),
      BlockWatchEvent.message m l s ∈ events → ∀ q : Params, l = some q → 0 < q.VotePeriodBlocks) :
    (votingPeriodStartedLoop GetBlockHeight events).2 ≠ .panicked := by
  induction events with
  | nil => simp [votingPeriodStartedLoop]
  | cons ev rest ih =>
    cases ev with
    | stopSignal => simp [votingPeriodStartedLoop]
    | message m l s =>
      have hrest := ih (fun m1 l1 s1 hmem => hpos m1 l1 s1 (List.mem_cons_of_mem _ hmem))
      unfold votingPeriodStartedLoop
      cases hstep : votingPeriodStartedStep GetBlockHeight l m s with
      | error e =>
        obtain ⟨q, hl, hq⟩ := votingPeriodStartedStep_error GetBlockHeight l m s e hstep
        have := hpos m l s (List.mem_cons_self _ _) q hl
        omega
      | ok out => simpa using hrest

/-- C12: a new-block message received while no parameters are cached is ignored,
whatever its height and whatever its payload: nothing is sent, the step does not
panic, and the loop goes on as if the message had not been received. -/
theorem votingPeriodStartedStep_ignores_without_params
    (GetBlockHeight : Message → Except String Nat) (msg : Message) (sel : Resolution) :
    votingPeriodStartedStep GetBlockHeight none msg sel = .ok []
      ∧ (∀ rest : List BlockWatchEvent,
          votingPeriodStartedLoop GetBlockHeight (BlockWatchEvent.message msg none sel :: rest)
            = votingPeriodStartedLoop GetBlockHeight rest) := by
  refine ⟨votingPeriodStartedStep_none GetBlockHeight msg sel, ?_⟩
  intro rest
  simp [votingPeriodStartedLoop, votingPeriodStartedStep_none]

/-- C13: on a tick whose query fails the params-poll loop does not leave its loop,
keeps the cached parameters as they are, sends nothing, and handles the ticks that
follow as if the failed one had not happened, so the next tick queries again. -/
theorem paramsStep_failed_query_is_skipped (cached : Option Params) (err : String)
    (sel : Resolution) :
    paramsStep cached (.error err) sel = (cached, [])
      ∧ paramsLoop cached [ParamsEvent.tick (.error err) sel] = (cached, [], .waiting)
      ∧ (∀ rest : List ParamsEvent,
          paramsLoop cached (ParamsEvent.tick (.error err) sel :: rest) = paramsLoop cached rest)
      ∧ (∀ (fetched : Except String Params) (sel2 : Resolution),
          paramsLoop cached [ParamsEvent.tick (.error err) sel, ParamsEvent.tick fetched sel2]
            = ((paramsStep cached fetched sel2).1, (paramsStep cached fetched sel2).2,
                .waiting)) := by
  refine ⟨rfl, rfl, fun _ => rfl, ?_⟩
  intro fetched sel2
  simp [paramsLoop, paramsStep]

/-- C16: with cached parameters whose `VotePeriodBlocks` is positive, handling a
new-block message completes without the division by zero, for every message; the
step panics only when the cached parameters have `VotePeriodBlocks = 0`; and a loop
that only ever loads parameters with a positive period never panics. -/
theorem votingPeriodStartedStep_total_with_positive_period
    (GetBlockHeight : Message → Except String Nat) (p : Params) (msg : Message)
    (sel : Resolution) (hP : 0 < p.VotePeriodBlocks) :
    (∃ out : List VotingPeriod,
        votingPeriodStartedStep GetBlockHeight (some p) msg sel = .ok out)
      ∧ (∀ (loaded : Option Params) (e : String),
          votingPeriodStartedStep GetBlockHeight loaded msg sel = .error e →
          ∃ q : Params, loaded = some q ∧ q.VotePeriodBlocks = 0)
      ∧ (∀ events : List BlockWatchEvent,
          (∀ (m : Message) (l : Option Params) (s : Resolution),
            BlockWatchEvent.message m l s ∈ events →
            ∀ q : Params, l = some q → 0 < q.VotePeriodBlocks) →
          (votingPeriodStartedLoop GetBlockHeight events).2 ≠ .panicked) := by
  refine ⟨?_, ?_, ?_⟩
  · cases hstep : votingPeriodStartedStep GetBlockHeight (some p) msg sel with
    | ok out => exact ⟨out, rfl⟩
    | error e =>
      obtain ⟨q, hl, hq⟩ := votingPeriodStartedStep_error GetBlockHeight (some p) msg sel e hstep
      cases hl
      omega
  · intro loaded e h
    exact votingPeriodStartedStep_error GetBlockHeight loaded msg sel e h
  · intro events hpos
    exact votingPeriodStartedLoop_never_panics GetBlockHeight events hpos

/-! ## Shutdown of the feeder -/

theorem zipWith_GetPrice_not_close (pairs : List AssetPair) :
    ∀ (results : List Price), ∀ c ∈ List.zipWith FeederCall.GetPrice pairs results,
      c.isClose = false := by
  induction pairs with
  | nil => intro results c hc; simp at hc
  | cons p rest ih =>
    intro results c hc
    cases results with
    | nil => simp at hc
    | cons r rs =>
      simp only [List.zipWith_cons_cons, List.mem_cons] at hc
      rcases hc with rfl | hc
      · rfl
      · exact ih rs c hc

theorem handleVotingPeriod_not_close {σ : Type} (f : Feeder σ) (vp : VotingPeriod) :
    ∀ c ∈ (f.handleVotingPeriod vp).2, c.isClose = false := by
  intro c hc
  rw [handleVotingPeriod_eq] at hc
  simp only [List.mem_append, List.mem_singleton] at hc
  rcases hc with hc | rfl
  · exact zipWith_GetPrice_not_close _ _ c hc
  · rfl

theorem loop_calls {σ : Type} (events : List FeederEvent) :
    ∀ f : Feeder σ, ∃ handled : List FeederCall,
      (∀ c ∈ handled, c.isClose = false)
        ∧ (f.loop events).2
            = handled ++ (if FeederEvent.stop ∈ events then Feeder.close else []) := by
  induction events with
  | nil => intro f; exact ⟨[], by simp, by simp [Feeder.loop]⟩
  | cons ev rest ih =>
    intro f
    cases ev with
    | stop => exact ⟨[], by simp, by simp [Feeder.loop]⟩
    | paramsUpdate params =>
      obtain ⟨handled, hno, heq⟩ := ih (f.handleParamsUpdate params)
      exact ⟨handled, hno, by simpa [Feeder.loop] using heq⟩
    | votingPeriodStarted vp =>
      obtain ⟨handled, hno, heq⟩ := ih (f.handleVotingPeriod vp).1
      refine ⟨(f.handleVotingPeriod vp).2 ++ handled, ?_, ?_⟩
      · intro c hc
        rcases List.mem_append.1 hc with hc | hc
        · exact handleVotingPeriod_not_close f vp c hc
        · exact hno c hc
      · simp only [Feeder.loop, heq, List.append_assoc]
        simp

theorem receiveDone_blocks (handled : List FeederCall)
    (hno : ∀ c ∈ handled, c.isClose = false) : receiveDone handled = none := by
  induction handled with
  | nil => rfl
  | cons c rest ih =>
    have hc : c ≠ FeederCall.CloseDone := by
      intro h
      have := hno c (List.mem_cons_self _ _)
      rw [h] at this
      cases this
    simp [receiveDone, hc, ih (fun d hd => hno d (List.mem_cons_of_mem _ hd))]

theorem receiveDone_returns (handled : List FeederCall)
    (hno : ∀ c ∈ handled, c.isClose = false) :
    receiveDone (handled ++ Feeder.close) = some (handled ++ Feeder.close) := by
  induction handled with
  | nil => simp [receiveDone, Feeder.close]
  | cons c rest ih =>
    have hc : c ≠ FeederCall.CloseDone := by
      intro h
      have := hno c (List.mem_cons_self _ _)
      rw [h] at this
      cases this
    simp [receiveDone, hc, ih (fun d hd => hno d (List.mem_cons_of_mem _ hd))]

theorem count_close_zero (handled : List FeederCall)
    (hno : ∀ c ∈ handled, c.isClose = false) (d : FeederCall) (hd : d.isClose = true) :
    handled.count d = 0 := by
  apply List.count_eq_zero_of_not_mem
  intro hmem
  have := hno d hmem
  rw [hd] at this
  cases this

/-- C14: when the main loop takes the stop signal it calls `Close` on the event
stream, on the price poster and on the price provider, each exactly once, and closes
`done` after these three calls and exactly once; `Feeder.Close` returns only when
`done` has been closed, and it has not returned as long as the loop has not taken
the stop signal. -/
theorem loop_closes_all_before_done {σ : Type} (f : Feeder σ) (events : List FeederEvent) :
    (FeederEvent.stop ∈ events →
        ∃ (handled : List FeederCall) (stopped : Feeder σ),
          (∀ c ∈ handled, c.isClose = false)
            ∧ (f.loop events).2
                = handled ++ [FeederCall.CloseEventStream, FeederCall.ClosePricePoster,
                    FeederCall.ClosePriceProvider, FeederCall.CloseDone]
            ∧ (f.loop events).2.count FeederCall.CloseEventStream = 1
            ∧ (f.loop events).2.count FeederCall.ClosePricePoster = 1
            ∧ (f.loop events).2.count FeederCall.ClosePriceProvider = 1
            ∧ (f.loop events).2.count FeederCall.CloseDone = 1
            ∧ f.Close events
                = some (stopped,
                    handled ++ [FeederCall.CloseEventStream, FeederCall.ClosePricePoster,
                      FeederCall.ClosePriceProvider, FeederCall.CloseDone]))
      ∧ (FeederEvent.stop ∉ events →
          f.Close events = none ∧ ∀ c ∈ (f.loop events).2, c.isClose = false) := by
  obtain ⟨handled, hno, heq⟩ := loop_calls events f
  constructor
  · intro hstop
    rw [if_pos hstop] at heq
    refine ⟨handled, (f.loop events).1, hno, heq, ?_, ?_, ?_, ?_, ?_⟩
    · rw [heq, List.count_append,
        count_close_zero handled hno FeederCall.CloseEventStream rfl]
      rfl
    · rw [heq, List.count_append,
        count_close_zero handled hno FeederCall.ClosePricePoster rfl]
      rfl
    · rw [heq, List.count_append,
        count_close_zero handled hno FeederCall.ClosePriceProvider rfl]
      rfl
    · rw [heq, List.count_append, count_close_zero handled hno FeederCall.CloseDone rfl]
      rfl
    · unfold Feeder.Close
      simp only [heq, receiveDone_returns handled hno]
      rfl
  · intro hstop
    rw [if_neg hstop, List.append_nil] at heq
    constructor
    · unfold Feeder.Close
      simp only [heq, receiveDone_blocks handled hno]
      rfl
    · rw [heq]
      exact hno

/-! ## Shutdown of the event stream -/

theorem innerAfterStop_stop (ready pick : Bool) (h : (ready && pick) = false) :
    innerAfterStop ready pick = .stopSignal := by
  cases ready <;> cases pick <;> simp_all [innerAfterStop, goSelect]

theorem blockTurn_takes_stop (t : BlockTurn) (h : (t.messageReady && t.pickMessage) = false) :
    t.afterStop = .stopSignal := by
  unfold BlockTurn.afterStop goSelect
  cases hr : t.messageReady <;> cases hp : t.pickMessage <;> simp_all

theorem paramsTurn_takes_stop (t : ParamsTurn) (h : (t.tickReady && t.pickTick) = false) :
    t.afterStop = .stopSignal := by
  unfold ParamsTurn.afterStop goSelect
  cases hr : t.tickReady <;> cases hp : t.pickTick <;> simp_all

theorem blockTurn_takes_message (t : BlockTurn)
    (h : (t.messageReady && t.pickMessage) = true) :
    t.afterStop
      = .message t.msg t.loaded (innerAfterStop t.receiverReady t.pickSend) := by
  unfold BlockTurn.afterStop goSelect
  cases hr : t.messageReady <;> cases hp : t.pickMessage <;> simp_all

theorem paramsTurn_takes_tick (t : ParamsTurn) (h : (t.tickReady && t.pickTick) = true) :
    t.afterStop = .tick t.fetched (innerAfterStop t.channelReady t.pickSend) := by
  unfold ParamsTurn.afterStop goSelect
  cases hr : t.tickReady <;> cases hp : t.pickTick <;> simp_all

theorem waitGroupCounter_zero (blockWatch paramsPoll : LoopStatus)
    (h : waitGroupCounter blockWatch paramsPoll = 0) :
    blockWatch ≠ .waiting ∧ paramsPoll ≠ .waiting := by
  revert h
  cases blockWatch <;> cases paramsPoll <;> simp [waitGroupCounter]

theorem votingPeriodStartedStep_stop_sends_nothing
    (GetBlockHeight : Message → Except String Nat) (loaded : Option Params) (msg : Message)
    (out : List VotingPeriod)
    (h : votingPeriodStartedStep GetBlockHeight loaded msg .stopSignal = .ok out) : out = [] := by
  unfold votingPeriodStartedStep at h
  cases hG : GetBlockHeight msg with
  | error e1 => simp [hG] at h; exact h
  | ok blockHeight =>
    by_cases h0 : blockHeight ≤ 0
    · simp [hG, h0] at h; exact h
    · cases loaded with
      | none => simp [hG, h0] at h; exact h
      | some q =>
        by_cases hq : q.VotePeriodBlocks = 0
        · simp [hG, h0, hq] at h
        · by_cases hm : (blockHeight + 1) % 18446744073709551616 % q.VotePeriodBlocks = 0
          · simp [hG, h0, hq, hm] at h; exact h
          · simp [hG, h0, hq, hm] at h; exact h

theorem paramsStep_stop_sends_nothing (cached : Option Params) (fetched : Except String Params) :
    (paramsStep cached fetched .stopSignal).2 = [] := by
  cases fetched with
  | error e => rfl
  | ok newParams =>
    cases cached with
    | none => rfl
    | some old => cases hE : old.Equal newParams <;> simp [paramsStep, hE]

theorem votingPeriodStartedLoop_silent_after_stop
    (GetBlockHeight : Message → Except String Nat) (turns : List BlockTurn)
    (h : ∀ t ∈ turns, (t.receiverReady && t.pickSend) = false) :
    (votingPeriodStartedLoop GetBlockHeight (turns.map BlockTurn.afterStop)).1 = [] := by
  induction turns with
  | nil => rfl
  | cons t rest ih =>
    have hrest := ih (fun u hu => h u (List.mem_cons_of_mem _ hu))
    have ht := innerAfterStop_stop t.receiverReady t.pickSend (h t (List.mem_cons_self _ _))
    rw [List.map_cons]
    cases hpick : (t.messageReady && t.pickMessage) with
    | false =>
      rw [blockTurn_takes_stop t hpick]
      rfl
    | true =>
      rw [blockTurn_takes_message t hpick, ht]
      unfold votingPeriodStartedLoop
      cases hstep : votingPeriodStartedStep GetBlockHeight t.loaded t.msg .stopSignal with
      | error e => rfl
      | ok out =>
        have := votingPeriodStartedStep_stop_sends_nothing GetBlockHeight t.loaded t.msg out hstep
        simp [this, hrest]

theorem paramsLoop_silent_after_stop (turns : List ParamsTurn)
    (h : ∀ t ∈ turns, (t.channelReady && t.pickSend) = false) :
    ∀ cached : Option Params, (paramsLoop cached (turns.map ParamsTurn.afterStop)).2.1 = [] := by
  induction turns with
  | nil => intro cached; rfl
  | cons t rest ih =>
    intro cached
    have hrest := ih (fun u hu => h u (List.mem_cons_of_mem _ hu))
    have ht := innerAfterStop_stop t.channelReady t.pickSend (h t (List.mem_cons_self _ _))
    rw [List.map_cons]
    cases hpick : (t.tickReady && t.pickTick) with
    | false =>
      rw [paramsTurn_takes_stop t hpick]
      rfl
    | true =>
      rw [paramsTurn_takes_tick t hpick, ht]
      simp only [paramsLoop, paramsStep_stop_sends_nothing, List.nil_append]
      exact hrest _

/-- C15 (as amended): once the stop signal of the event stream is closed, a loop that
takes the stop case in its outer `select` is left at once and sends nothing more,
whatever follows; a signal is sent after the closing only by an inner `select` in
which the send could proceed and the runtime chose it over the stop signal, so with no
such `select` neither loop sends anything; and `Close` does not return until both loops
have been left. -/
theorem Close_waits_and_stop_case_is_silent (GetBlockHeight : Message → Except String Nat)
    (cached : Option Params) (blockTurns : List BlockTurn) (paramsTurns : List ParamsTurn) :
    (∀ sent : List VotingPeriod × List Params,
        Stream.Close GetBlockHeight cached blockTurns paramsTurns = some sent →
        (votingPeriodStartedLoop GetBlockHeight (blockTurns.map BlockTurn.afterStop)).2
            ≠ .waiting
          ∧ (paramsLoop cached (paramsTurns.map ParamsTurn.afterStop)).2.2 ≠ .waiting
          ∧ sent = ((votingPeriodStartedLoop GetBlockHeight
                      (blockTurns.map BlockTurn.afterStop)).1,
                    (paramsLoop cached (paramsTurns.map ParamsTurn.afterStop)).2.1))
      ∧ (∀ (t : BlockTurn) (rest : List BlockTurn),
          (t.messageReady && t.pickMessage) = false →
          votingPeriodStartedLoop GetBlockHeight ((t :: rest).map BlockTurn.afterStop)
            = ([], .exited))
      ∧ (∀ (t : ParamsTurn) (rest : List ParamsTurn),
          (t.tickReady && t.pickTick) = false →
          paramsLoop cached ((t :: rest).map ParamsTurn.afterStop) = (cached, [], .exited))
      ∧ ((∀ t ∈ blockTurns, (t.receiverReady && t.pickSend) = false) →
          (votingPeriodStartedLoop GetBlockHeight (blockTurns.map BlockTurn.afterStop)).1 = [])
      ∧ ((∀ t ∈ paramsTurns, (t.channelReady && t.pickSend) = false) →
          (paramsLoop cached (paramsTurns.map ParamsTurn.afterStop)).2.1 = []) := by
  refine ⟨?_, ?_, ?_, ?_, ?_⟩
  · intro sent h
    unfold Stream.Close at h
    simp only at h
    split at h
    · rename_i hzero
      simp only [Option.some.injEq] at h
      exact ⟨(waitGroupCounter_zero _ _ hzero).1, (waitGroupCounter_zero _ _ hzero).2, h.symm⟩
    · cases h
  · intro t rest h
    simp [blockTurn_takes_stop t h, votingPeriodStartedLoop]
  · intro t rest h
    simp [paramsTurn_takes_stop t h, paramsLoop]
  · exact votingPeriodStartedLoop_silent_after_stop GetBlockHeight blockTurns
  · intro h
    exact paramsLoop_silent_after_stop paramsTurns h cached

/-- Counterexample to C15 as stated: after the stop signal is closed a tick is waiting
and taken, the query returns parameters that are not cached yet, `paramsChannel` has
room and the send is chosen: the parameters are sent although shutdown was requested.
In the same way a voting period is sent when a message is waiting and a receiver is
ready. In both runs the loops are then left and `Close` returns. -/
theorem Close_may_follow_a_late_signal :
    Stream.Close (fun _ => .ok 9) none
        [⟨false, false, [], none, false, false⟩]
        [⟨true, true, .ok ⟨["ubtc:unusd"], 5⟩, true, true⟩,
          ⟨false, false, .error "", false, false⟩]
        = some ([], [⟨["ubtc:unusd"], 5⟩])
      ∧ Stream.Close (fun _ => .ok 9) (some ⟨["ubtc:unusd"], 5⟩)
          [⟨true, true, [], some ⟨["ubtc:unusd"], 5⟩, true, true⟩,
            ⟨false, false, [], none, false, false⟩]
          [⟨false, false, .error "", false, false⟩]
        = some ([⟨10⟩], []) := by
  constructor
  · rfl
  · rfl

/-! ## Further evaluations on concrete inputs -/

/-- Witness of C14 on the feeder of the test: a voting period is handled, then the
stop signal is taken; `Close` returns after the three `Close` calls and the closing of
`done`. -/
theorem loop_closes_all_before_done_witness :
    FeederEvent.stop ∈ [FeederEvent.votingPeriodStarted ⟨100⟩, FeederEvent.stop]
      ∧ ∃ (handled : List FeederCall) (stopped : Feeder Unit),
          (∀ c ∈ handled, c.isClose = false)
            ∧ (testFeeder.loop [FeederEvent.votingPeriodStarted ⟨100⟩, FeederEvent.stop]).2
                = handled ++ [FeederCall.CloseEventStream, FeederCall.ClosePricePoster,
                    FeederCall.ClosePriceProvider, FeederCall.CloseDone]
            ∧ (testFeeder.loop
                  [FeederEvent.votingPeriodStarted ⟨100⟩, FeederEvent.stop]).2.count
                FeederCall.CloseEventStream = 1
            ∧ (testFeeder.loop
                  [FeederEvent.votingPeriodStarted ⟨100⟩, FeederEvent.stop]).2.count
                FeederCall.ClosePricePoster = 1
            ∧ (testFeeder.loop
                  [FeederEvent.votingPeriodStarted ⟨100⟩, FeederEvent.stop]).2.count
                FeederCall.ClosePriceProvider = 1
            ∧ (testFeeder.loop
                  [FeederEvent.votingPeriodStarted ⟨100⟩, FeederEvent.stop]).2.count
                FeederCall.CloseDone = 1
            ∧ testFeeder.Close [FeederEvent.votingPeriodStarted ⟨100⟩, FeederEvent.stop]
                = some (stopped,
                    handled ++ [FeederCall.CloseEventStream, FeederCall.ClosePricePoster,
                      FeederCall.ClosePriceProvider, FeederCall.CloseDone]) :=
  ⟨by decide,
    (loop_closes_all_before_done testFeeder
      [FeederEvent.votingPeriodStarted ⟨100⟩, FeederEvent.stop]).1 (by decide)⟩

/-- Witness of C16: with period `5` cached the step on a message of height `9`
completes. -/
theorem votingPeriodStartedStep_total_with_positive_period_witness :
    0 < (⟨["ubtc:unusd"], 5⟩ : Params).VotePeriodBlocks
      ∧ ∃ out : List VotingPeriod,
          votingPeriodStartedStep (fun _ => .ok 9) (some ⟨["ubtc:unusd"], 5⟩) [] .sent
            = .ok out :=
  ⟨by decide,
    (votingPeriodStartedStep_total_with_positive_period (fun _ => .ok 9)
      ⟨["ubtc:unusd"], 5⟩ [] .sent (by decide)).1⟩

end Pricefeeder
